import Mathlib

/-!
Verification of the litestream file replica engine (replica.go).

The development shallowly embeds the `FileReplica` operations over an explicit
model of the destination directory tree.  File contents are abstracted to
metadata (size, modification time); times are naturals (a zero value plays the
role of Go's zero `time.Time`).  Filenames are genuine strings, parsed by the
path codec.  Fallible filesystem and database-adapter steps are driven by
explicit environment records so that every control path of the source is
representable.
-/

/-- Metadata of a file as observed through `os.FileInfo`: `Size()` and
`ModTime()` (times modelled as naturals, with `0` for the zero time). -/
structure FileMeta where
  size : Nat
  mtime : Nat
deriving DecidableEq, Repr

/-- A replication position `(generation, index, offset)` (type `Pos` in the
source).  Indices and offsets are the nonnegative values of the Go ints. -/
structure Pos where
  generation : String
  index : Nat
  offset : Nat
deriving DecidableEq, Repr

/-- `Pos.IsZero`: the position equals the zero value. -/
def Pos.isZero (p : Pos) : Bool :=
  p.generation = "" && p.index = 0 && p.offset = 0

/-- The errors the embedded operations can report.  Distinct constructors keep
distinct Go error values distinct: `noSnapshotsFound` is the
`fmt.Errorf("no snapshots found")` of `MaxSnapshotIndex`, `errNoSnapshots` is
the `ErrNoSnapshots` sentinel, `notExist` stands for an `os.IsNotExist` error,
`indexNotFound` is the formatted error of `WALIndexAt`, and `wrap` is
`fmt.Errorf` context wrapping. -/
inductive Err where
  | notExist
  | noSnapshotsFound
  | errNoSnapshots
  | noGeneration
  | indexNotFound (maxIndex : Nat) (generation : String) (highest : Nat)
  | sourceErr (msg : String)
  | ioErr (msg : String)
  | wrap (ctx : String) (e : Err)
deriving DecidableEq, Repr

/-! ## Path codec -/

/-- Lowercase hexadecimal digit test. -/
def isLowerHexDigit (c : Char) : Bool :=
  (('0' ≤ c) && (c ≤ '9')) || (('a' ≤ c) && (c ≤ 'f'))

/-- Value of a lowercase hexadecimal digit. -/
def hexDigitVal (c : Char) : Nat :=
  if ('0' ≤ c) && (c ≤ '9') then c.toNat - 48 else c.toNat - 87

/-- Parse exactly sixteen lowercase hexadecimal digits. -/
def parseHex16 (cs : List Char) : Option Nat :=
  if cs.length = 16 && cs.all isLowerHexDigit then
    some (cs.foldl (fun a c => 16 * a + hexDigitVal c) 0)
  else none

/-- Lowercase hexadecimal digit character for a value below sixteen. -/
def hexDigitChar (n : Nat) : Char :=
  if n < 10 then Char.ofNat (48 + n) else Char.ofNat (87 + n)

/-- Hexadecimal digit expansion, most significant first (fuelled structural
recursion; 64 digits of fuel cover every value a Go int64 can take). -/
def hexCharsAux : Nat → Nat → List Char
  | 0, _ => []
  | fuel + 1, n =>
    if n < 16 then [hexDigitChar n]
    else hexCharsAux fuel (n / 16) ++ [hexDigitChar (n % 16)]

/-- The `fmt.Sprintf("%016x", index)` filename stem used by `SnapshotPath` and
`WALPath`: hexadecimal, zero padded on the left to sixteen digits. -/
def toHex16 (n : Nat) : String :=
  let ds := hexCharsAux 64 n
  ⟨List.replicate (16 - ds.length) '0' ++ ds⟩

/-- Strip a suffix from a character list, or fail. -/
def dropSuffixChars (suffix s : List Char) : Option (List Char) :=
  if s.length ≥ suffix.length && s.drop (s.length - suffix.length) = suffix then
    some (s.take (s.length - suffix.length))
  else none

/-- Modelled from the spec: `ParseSnapshotPath` is not under src/; per the
spec's path codec a snapshot filename is sixteen lowercase hex digits followed
by ".snapshot" or ".snapshot.gz"; parsing returns the index and whether the
file is compressed, or fails on anything else. -/
def ParseSnapshotPath (name : String) : Option (Nat × Bool) :=
  match dropSuffixChars ".snapshot.gz".data name.data with
  | some stem => (parseHex16 stem).map (fun i => (i, true))
  | none =>
    match dropSuffixChars ".snapshot".data name.data with
    | some stem => (parseHex16 stem).map (fun i => (i, false))
    | none => none

/-- Modelled from the spec: `ParseWALPath` is not under src/; per the spec's
path codec a WAL filename is sixteen lowercase hex digits followed by ".wal"
or ".wal.gz"; parsing returns (index, offset = 0, compressed). -/
def ParseWALPath (name : String) : Option (Nat × Nat × Bool) :=
  match dropSuffixChars ".wal.gz".data name.data with
  | some stem => (parseHex16 stem).map (fun i => (i, 0, true))
  | none =>
    match dropSuffixChars ".wal".data name.data with
    | some stem => (parseHex16 stem).map (fun i => (i, 0, false))
    | none => none

/-- Modelled from the spec: the repository-defined generation-name validator is
not under src/; the spec keeps it opaque, and the repository's codec uses
sixteen lowercase hexadecimal characters, which is what we instantiate. -/
def IsGenerationName (s : String) : Bool :=
  s.data.length = 16 && s.data.all isLowerHexDigit

/-- The parsed snapshot index of a directory entry, when its name parses. -/
def snapParseIndex (e : String × FileMeta) : Option Nat :=
  (ParseSnapshotPath e.1).map (fun p => p.1)

/-- Snapshot filename for an index, as produced by `SnapshotPath`. -/
def snapshotFileName (index : Nat) : String :=
  toHex16 index ++ ".snapshot.gz"

/-- Uncompressed WAL filename for an index, as produced by `WALPath`. -/
def walFileName (index : Nat) : String :=
  toHex16 index ++ ".wal"

/-! ## The destination tree

The replica inspects the destination only at these spots: the entries directly
under dst/generations (name and directory bit), the entries of each
generation's snapshots directory (name and metadata), and the entries of each
generation's wal directory.  Inside the wal directory the compression sweep's
glob pattern additionally inspects the children one level below, so a wal
entry may be a subdirectory carrying its own flat listing.  Nothing in
replica.go ever looks deeper, so this is a complete model of the inspected
state.  Listings are kept in `ioutil.ReadDir` order. -/

/-- An entry of a generation's wal directory: a regular file, or a
subdirectory with its own flat listing of children. -/
inductive WalEntry where
  | file (meta : FileMeta)
  | subdir (children : List (String × FileMeta)) (meta : FileMeta)
deriving DecidableEq, Repr

/-- The metadata `os.Stat` reports for a wal entry. -/
def WalEntry.meta : WalEntry → FileMeta
  | .file m => m
  | .subdir _ m => m

/-- The parsed WAL index of a directory entry, when its name parses. -/
def walParseIndex (e : String × WalEntry) : Option Nat :=
  (ParseWALPath e.1).map (fun p => p.1)

/-- One generation directory under dst/generations: the entry's directory bit
and the listings of its snapshots and wal subdirectories (`none` when the
subdirectory does not exist). -/
structure GenDir where
  isDir : Bool
  snapshots : Option (List (String × FileMeta))
  wal : Option (List (String × WalEntry))
deriving DecidableEq, Repr

/-- The destination tree: the listing of dst/generations, or `none` when that
directory does not exist. -/
structure DstFS where
  generations : Option (List (String × GenDir))
deriving DecidableEq, Repr

/-- The generation entry a path lookup under dst/generations finds. -/
def DstFS.getGen (fs : DstFS) (gen : String) : Option GenDir :=
  match fs.generations with
  | none => none
  | some es => (es.find? (fun e => e.1 == gen)).map (·.2)

/-- The listing `ioutil.ReadDir` returns for a generation's snapshots
directory (`none` for a not-exist error). -/
def DstFS.snapListing (fs : DstFS) (gen : String) : Option (List (String × FileMeta)) :=
  match fs.getGen gen with
  | none => none
  | some gd => gd.snapshots

/-- The listing `ioutil.ReadDir` returns for a generation's wal directory
(`none` for a not-exist error). -/
def DstFS.walListing (fs : DstFS) (gen : String) : Option (List (String × WalEntry)) :=
  match fs.getGen gen with
  | none => none
  | some gd => gd.wal

/-- `os.Stat` on a file of the snapshots directory. -/
def DstFS.statSnapshotFile (fs : DstFS) (gen name : String) : Option FileMeta :=
  match fs.snapListing gen with
  | none => none
  | some es => (es.find? (fun e => e.1 == name)).map (·.2)

/-- `os.Stat` (or `os.Open`) on an entry of the wal directory. -/
def DstFS.statWalEntry (fs : DstFS) (gen name : String) : Option WalEntry :=
  match fs.walListing gen with
  | none => none
  | some es => (es.find? (fun e => e.1 == name)).map (·.2)

/-- Rewrite one generation's directory in place. -/
def DstFS.updateGen (fs : DstFS) (gen : String) (f : GenDir → GenDir) : DstFS :=
  ⟨fs.generations.map (List.map (fun e => if e.1 == gen then (e.1, f e.2) else e))⟩

/-- `os.RemoveAll` on a generation's directory. -/
def DstFS.removeGen (fs : DstFS) (gen : String) : DstFS :=
  ⟨fs.generations.map (List.filter (fun e => !(e.1 == gen)))⟩

/-- Create a snapshot file, creating dst/generations, the generation directory
and its snapshots directory as `mkdirAll` would when they are missing. -/
def DstFS.insertSnapshotFile (fs : DstFS) (gen name : String) (meta : FileMeta) : DstFS :=
  match fs.generations with
  | none => ⟨some [(gen, ⟨true, some [(name, meta)], none⟩)]⟩
  | some es =>
    if es.any (fun e => e.1 == gen) then
      fs.updateGen gen (fun gd =>
        { gd with snapshots := some ((gd.snapshots.getD []) ++ [(name, meta)]) })
    else ⟨some (es ++ [(gen, ⟨true, some [(name, meta)], none⟩)])⟩

/-! ## Listings -/

/-- `Generations` (replica.go): list dst/generations, treat a missing root as
empty, and keep entries that pass the generation-name validator and are
directories. -/
def Generations (fs : DstFS) : List String :=
  match fs.generations with
  | none => []
  | some es => es.filterMap (fun e =>
      if IsGenerationName e.1 && e.2.isDir then some e.1 else none)

/-- One record of the `Snapshots` listing (`SnapshotInfo` in the source; the
replica-name field, constant here, is dropped). -/
structure SnapshotInfo where
  name : String
  generation : String
  index : Nat
  size : Nat
  createdAt : Nat
deriving DecidableEq, Repr

/-- `Snapshots` (replica.go): for every listed generation, parse the entries
of its snapshots directory (a missing directory contributes nothing) into
info records carrying the file modification time as created-at. -/
def Snapshots (fs : DstFS) : List SnapshotInfo :=
  (Generations fs).flatMap (fun generation =>
    match fs.snapListing generation with
    | none => []
    | some fis => fis.filterMap (fun e =>
        (ParseSnapshotPath e.1).map (fun p =>
          { name := e.1, generation, index := p.1, size := e.2.size, createdAt := e.2.mtime })))

/-- `snapshotN` (replica.go): number of parseable snapshot filenames in a
generation, zero when the directory is missing. -/
def snapshotN (fs : DstFS) (generation : String) : Nat :=
  match fs.snapListing generation with
  | none => 0
  | some fis => fis.countP (fun e => (ParseSnapshotPath e.1).isSome)

/-- The running-maximum loop shared by `MaxSnapshotIndex` and the WAL scan of
`CalcPos`: skip unparseable names, otherwise keep the larger index (`none`
plays the source's -1 start value). -/
def maxIndexFold {α : Type} (parse : α → Option Nat) (acc : Option Nat) :
    List α → Option Nat
  | [] => acc
  | e :: rest =>
    match parse e with
    | none => maxIndexFold parse acc rest
    | some i =>
      match acc with
      | none => maxIndexFold parse (some i) rest
      | some j => maxIndexFold parse (some (if i > j then i else j)) rest

/-- Accumulator loop of `MaxSnapshotIndex`. -/
def maxSnapIndexAux (acc : Option Nat) (es : List (String × FileMeta)) : Option Nat :=
  maxIndexFold snapParseIndex acc es

/-- `MaxSnapshotIndex` (replica.go): highest parseable snapshot index of a
generation; a read-dir failure (missing directory) is returned as is, and an
empty scan fails with the formatted no-snapshots-found error. -/
def MaxSnapshotIndex (fs : DstFS) (generation : String) : Except Err Nat :=
  match fs.snapListing generation with
  | none => .error .notExist
  | some fis =>
    match maxSnapIndexAux none fis with
    | none => .error .noSnapshotsFound
    | some i => .ok i

/-- Accumulator loop of `CalcPos` over the wal listing. -/
def maxWalIndexAux (acc : Option Nat) (es : List (String × WalEntry)) : Option Nat :=
  maxIndexFold walParseIndex acc es

/-- `CalcPos` (replica.go): start from the highest snapshot index; return it
with offset zero when the wal directory is missing or holds no parseable WAL
name; otherwise move to the highest parseable WAL index and take the size of
the uncompressed WAL file at that index, failing when its stat fails. -/
def CalcPos (fs : DstFS) (generation : String) : Except Err Pos :=
  match MaxSnapshotIndex fs generation with
  | .error e => .error e
  | .ok snapIdx =>
    match fs.walListing generation with
    | none => .ok ⟨generation, snapIdx, 0⟩
    | some fis =>
      match maxWalIndexAux none fis with
      | none => .ok ⟨generation, snapIdx, 0⟩
      | some walIdx =>
        match fs.statWalEntry generation (walFileName walIdx) with
        | none => .error .notExist
        | some e => .ok ⟨generation, walIdx, e.meta.size⟩

/-- Accumulator loop of `SnapshotIndexAt`: the candidate index together with
the running maximum modification time (zero meaning none recorded yet, as for
the source's zero `time.Time`). -/
def snapIndexAtAux (timestamp : Nat) (acc : Option Nat × Nat) :
    List (String × FileMeta) → Option Nat × Nat
  | [] => acc
  | e :: rest =>
    match ParseSnapshotPath e.1 with
    | none => snapIndexAtAux timestamp acc rest
    | some p =>
      if timestamp ≠ 0 && e.2.mtime > timestamp then
        snapIndexAtAux timestamp acc rest
      else if acc.2 = 0 || e.2.mtime > acc.2 then
        snapIndexAtAux timestamp (some p.1, e.2.mtime) rest
      else
        snapIndexAtAux timestamp acc rest

/-- `SnapshotIndexAt` (replica.go): index of the parseable snapshot with the
greatest modification time not after the timestamp (no time bound when the
timestamp is zero); a missing directory or an empty scan fails with
`ErrNoSnapshots`. -/
def SnapshotIndexAt (fs : DstFS) (generation : String) (timestamp : Nat) : Except Err Nat :=
  match fs.snapListing generation with
  | none => .error .errNoSnapshots
  | some fis =>
    match snapIndexAtAux timestamp (none, 0) fis with
    | (none, _) => .error .errNoSnapshots
    | (some i, _) => .ok i

/-- The `math.MaxInt64` sentinel accepted by `WALIndexAt`. -/
def maxInt64 : Nat := 9223372036854775807

/-- Accumulator loop of `WALIndexAt`: the running best index, starting from
the zero value of the Go int. -/
def walIndexAtAux (maxIndex timestamp : Nat) (acc : Nat) :
    List (String × WalEntry) → Nat
  | [] => acc
  | e :: rest =>
    match ParseWALPath e.1 with
    | none => walIndexAtAux maxIndex timestamp acc rest
    | some p =>
      if timestamp ≠ 0 && e.2.meta.mtime > timestamp then
        walIndexAtAux maxIndex timestamp acc rest
      else if p.1 > maxIndex then
        walIndexAtAux maxIndex timestamp acc rest
      else if p.1 < acc then
        walIndexAtAux maxIndex timestamp acc rest
      else
        walIndexAtAux maxIndex timestamp p.1 rest

/-- `WALIndexAt` (replica.go): highest parseable WAL index at most `maxIndex`
whose modification time is not after the timestamp; a missing wal directory
returns index zero with no error; when `maxIndex` is not the sentinel and the
scan did not land on it, fail with the index-not-found error carrying the
highest index seen. -/
def WALIndexAt (fs : DstFS) (generation : String) (maxIndex timestamp : Nat) : Except Err Nat :=
  match fs.walListing generation with
  | none => .ok 0
  | some fis =>
    let index := walIndexAtAux maxIndex timestamp 0 fis
    if maxIndex ≠ maxInt64 && index ≠ maxIndex then
      .error (.indexNotFound maxIndex generation index)
    else
      .ok index

/-- What `WALReader` hands back: the open uncompressed file, or a gzip decoder
wrapped around the compressed file. -/
inductive WALReaderHandle where
  | plain (meta : FileMeta)
  | gzip (meta : FileMeta)
deriving DecidableEq, Repr

/-- `WALReader` (replica.go): open the uncompressed WAL file for the index
when it exists; otherwise open the compressed variant and wrap it in a gzip
decoder; when neither exists, report the not-exist error of the second
open. -/
def WALReader (fs : DstFS) (generation : String) (index : Nat) : Except Err WALReaderHandle :=
  match fs.statWalEntry generation (walFileName index) with
  | some e => .ok (.plain e.meta)
  | none =>
    match fs.statWalEntry generation (walFileName index ++ ".gz") with
    | none => .error .notExist
    | some e => .ok (.gzip e.meta)

/-! ## Snapshot operation -/

/-- Environment for one `snapshot` call: whether acquiring the read
transaction (begin plus the sequence-table query) succeeds, whether
`compressFile` of the database file succeeds, and the metadata the written
snapshot file ends up with. -/
structure SnapEnv where
  txOk : Bool
  compressOk : Bool
  snapMeta : FileMeta

/-- `snapshot` (replica.go): acquire the checkpoint-blocking read transaction;
return success immediately when a snapshot file already exists at the target
path; otherwise create the directories and gzip the database file into
place. -/
def snapshot (env : SnapEnv) (fs : DstFS) (generation : String) (index : Nat) : Except Err DstFS :=
  if !env.txOk then .error (.sourceErr "begin read tx")
  else if (fs.statSnapshotFile generation (snapshotFileName index)).isSome then .ok fs
  else if !env.compressOk then .error (.ioErr "compress file")
  else .ok (fs.insertSnapshotFile generation (snapshotFileName index) env.snapMeta)

/-! ## WAL synchronization -/

/-- The bounded reader the source adapter returns: its actual position and the
number of bytes it yields. -/
structure ShadowReader where
  pos : Pos
  n : Nat
deriving DecidableEq, Repr

/-- Outcome of one `ShadowWALReader` request. -/
inductive ShadowRes where
  | eof
  | fail (msg : String)
  | ok (rd : ShadowReader)
deriving DecidableEq, Repr

/-- Environment for one `syncWAL` pass: the shadow-reader outcome and the
success of each fallible filesystem step, plus the modification time stamped
on the written WAL file. -/
structure ReaderStep where
  result : ShadowRes
  mkdirOk : Bool
  openOk : Bool
  seekOk : Bool
  copyOk : Bool
  fsyncOk : Bool
  closeOk : Bool
  mtime : Nat

/-- Replica state the sync engine mutates: the cached position and the
destination tree. -/
structure RState where
  pos : Pos
  fs : DstFS
deriving DecidableEq, Repr

/-- `LastPos` (replica.go): the cached last replicated position. -/
def LastPos (st : RState) : Pos := st.pos

/-- Replace or append the named entry of a wal listing with a regular file. -/
def upsertWalEntry (es : List (String × WalEntry)) (name : String) (m : FileMeta) :
    List (String × WalEntry) :=
  if es.any (fun e => e.1 == name) then
    es.map (fun e => if e.1 == name then (e.1, .file m) else e)
  else es ++ [(name, .file m)]

/-- Write a regular file into a generation's wal directory, creating
dst/generations, the generation directory and the wal directory as `mkdirAll`
would when they are missing. -/
def DstFS.insertWalFile (fs : DstFS) (gen name : String) (m : FileMeta) : DstFS :=
  match fs.generations with
  | none => ⟨some [(gen, ⟨true, none, some [(name, .file m)]⟩)]⟩
  | some es =>
    if es.any (fun e => e.1 == gen) then
      ⟨some (es.map (fun e =>
        if e.1 == gen then
          (e.1, { e.2 with wal := some (upsertWalEntry (e.2.wal.getD []) name m) })
        else e))⟩
    else ⟨some (es ++ [(gen, ⟨true, none, some [(name, .file m)]⟩)])⟩

/-- Result of one `syncWAL` pass: end of stream, an error, or success; each
carries the replica state after the pass. -/
inductive SWResult where
  | eof (st : RState)
  | err (e : Err) (st : RState)
  | ok (st : RState)
deriving DecidableEq, Repr

/-- `syncWAL` (replica.go): request a shadow reader for anything at or after
the cached position, create the destination WAL file, seek to the reader's
offset, copy, fsync and close, and only after all of that publish the
reader's position as the cached position.  An end-of-stream reader is
reported as such; any failing step reports an error. -/
def syncWAL (step : ReaderStep) (st : RState) : SWResult :=
  match step.result with
  | .eof => .eof st
  | .fail msg => .err (.wrap "wal reader" (.sourceErr msg)) st
  | .ok rd =>
    if !step.mkdirOk then .err (.ioErr "mkdir") st
    else
      let gen := rd.pos.generation
      let name := walFileName rd.pos.index
      let isSubdir : Bool :=
        match st.fs.statWalEntry gen name with
        | some (.subdir _ _) => true
        | _ => false
      if !step.openOk || isSubdir then .err (.ioErr "open") st
      else
        let oldSize : Nat :=
          match st.fs.statWalEntry gen name with
          | some (.file m) => m.size
          | _ => 0
        let fsOpened : DstFS :=
          match st.fs.statWalEntry gen name with
          | some _ => st.fs
          | none => st.fs.insertWalFile gen name ⟨0, step.mtime⟩
        if !step.seekOk then .err (.ioErr "seek") { st with fs := fsOpened }
        else if !step.copyOk then .err (.ioErr "copy") { st with fs := fsOpened }
        else
          let fsWritten : DstFS :=
            fsOpened.insertWalFile gen name ⟨max oldSize (rd.pos.offset + rd.n), step.mtime⟩
          if !step.fsyncOk then .err (.ioErr "fsync") { st with fs := fsWritten }
          else if !step.closeOk then .err (.ioErr "close") { st with fs := fsWritten }
          else .ok { pos := rd.pos, fs := fsWritten }

/-! ## Compression sweep -/

/-- Environment for the compression sweep: the loop iteration at which the
cancellation token is first observed fired (if ever), the success of
`compressFile` and `os.Remove` per iteration, and the metadata of each
written gzip file. -/
structure CompressEnv where
  cancelAt : Option Nat
  fileOk : Nat → Bool
  removeOk : Nat → Bool
  gzMeta : Nat → FileMeta

/-- The matches of Go's filepath.Glob for the pattern wal-dir/**/*.wal, as
(subdirectory, child) pairs.  The double star is not recursive: it matches a
single path component, so the pattern requires one directory level between
the wal directory and the matched name; candidates whose middle component is
a regular file are skipped by the glob's directory check, and a missing wal
directory silently yields no matches.  Per entry of the wal directory: -/
def walEntryGlob (e : String × WalEntry) : List (String × String) :=
  match e.2 with
  | .file _ => []
  | .subdir children _ =>
    children.filterMap (fun c =>
      if (dropSuffixChars ".wal".data c.1.data).isSome then some (e.1, c.1) else none)

def compressGlob (fs : DstFS) (gen : String) : List (String × String) :=
  match fs.walListing gen with
  | none => []
  | some es => es.flatMap walEntryGlob

/-- Bytewise lexicographic comparison of character lists (the order of Go's
sort.Strings on these ASCII names). -/
def charListLe : List Char → List Char → Bool
  | [], _ => true
  | _ :: _, [] => false
  | a :: as, b :: bs =>
    if a.toNat < b.toNat then true
    else if b.toNat < a.toNat then false
    else charListLe as bs

/-- The full path string of a glob match, as the source manipulates it. -/
def fullItemPath (gen : String) (dc : String × String) : String :=
  "generations/" ++ gen ++ "/wal/" ++ dc.1 ++ "/" ++ dc.2

/-- Insertion into a list sorted by full path string. -/
def insertByPath (gen : String) (x : String × String) :
    List (String × String) → List (String × String)
  | [] => [x]
  | y :: ys =>
    if charListLe (fullItemPath gen x).data (fullItemPath gen y).data then x :: y :: ys
    else y :: insertByPath gen x ys

/-- `sort.Strings` on the glob matches (insertion sort by full path). -/
def sortItems (gen : String) : List (String × String) → List (String × String)
  | [] => []
  | x :: xs => insertByPath gen x (sortItems gen xs)

/-- Create or overwrite a child file inside a subdirectory entry of a
generation's wal directory (the effect of `compressFile` writing and renaming
the gzip file). -/
def DstFS.insertWalChild (fs : DstFS) (gen d c : String) (m : FileMeta) : DstFS :=
  fs.updateGen gen (fun gd =>
    { gd with wal := gd.wal.map (List.map (fun e =>
        if e.1 == d then
          (e.1,
            match e.2 with
            | .subdir children dm =>
              .subdir
                (if children.any (fun ch => ch.1 == c) then
                  children.map (fun ch => if ch.1 == c then (ch.1, m) else ch)
                 else children ++ [(c, m)]) dm
            | .file fm => .file fm)
        else e)) })

/-- Remove a child file from a subdirectory entry of a generation's wal
directory (the effect of `os.Remove` on the compressed source). -/
def DstFS.removeWalChild (fs : DstFS) (gen d c : String) : DstFS :=
  fs.updateGen gen (fun gd =>
    { gd with wal := gd.wal.map (List.map (fun e =>
        if e.1 == d then
          (e.1,
            match e.2 with
            | .subdir children dm => .subdir (children.filter (fun ch => !(ch.1 == c))) dm
            | .file fm => .file fm)
        else e)) })

/-- Whether the cancellation token is observed fired at loop iteration k (the
token stays fired once it fires). -/
def CompressEnv.fired (cenv : CompressEnv) (k : Nat) : Bool :=
  match cenv.cancelAt with
  | some n => decide (n ≤ k)
  | none => false

/-- The loop of `compress` (replica.go): at each iteration head, if the
cancellation token has fired return the outer error variable, which is nil
after the successful glob; otherwise gzip the file and remove the
uncompressed original, propagating either failure. -/
def compressLoop (cenv : CompressEnv) (gen : String) :
    Nat → DstFS → List (String × String) → Except Err DstFS
  | _, fs, [] => .ok fs
  | k, fs, dc :: rest =>
    if cenv.fired k then .ok fs
    else if !cenv.fileOk k then .error (.ioErr "compress file")
    else
      let fs1 := fs.insertWalChild gen dc.1 (dc.2 ++ ".gz") (cenv.gzMeta k)
      if !cenv.removeOk k then .error (.ioErr "remove")
      else compressLoop cenv gen (k + 1) (fs1.removeWalChild gen dc.1 dc.2) rest

/-- `compress` (replica.go): glob wal-dir/**/*.wal, return nil when at most
one name matched, otherwise sort the names, drop the last (active) one and
run the loop over the rest. -/
def compress (cenv : CompressEnv) (fs : DstFS) (gen : String) : Except Err DstFS :=
  let filenames := compressGlob fs gen
  if filenames.length ≤ 1 then .ok fs
  else compressLoop cenv gen 0 fs ((sortItems gen filenames).dropLast)

/-- The unconditional effect of compressing a list of sweep items in order:
for the item at iteration k, write the gzip sibling with that iteration's
metadata and remove the uncompressed original. -/
def compressApply (cenv : CompressEnv) (gen : String) :
    Nat → DstFS → List (String × String) → DstFS
  | _, fs, [] => fs
  | k, fs, dc :: rest =>
    compressApply cenv gen (k + 1)
      ((fs.insertWalChild gen dc.1 (dc.2 ++ ".gz") (cenv.gzMeta k)).removeWalChild gen dc.1 dc.2)
      rest

/-! ## Sync -/

/-- Environment for one `Sync` pass: the database position, the snapshot
environment, the outcomes of the successive shadow-reader requests (the end
of the list standing for an end-of-stream reader), and the compression
environment. -/
structure SyncEnv where
  dbPos : Except String Pos
  snapEnv : SnapEnv
  steps : List ReaderStep
  compEnv : CompressEnv

/-- Result of `Sync`: success or an error, with the replica state as left
behind. -/
inductive SyncResult where
  | ok (st : RState)
  | err (e : Err) (st : RState)
deriving DecidableEq, Repr

/-- The read-all-WAL-files loop of `Sync`: run `syncWAL` until it reports end
of stream, propagating errors. -/
def syncLoop : List ReaderStep → RState → SyncResult
  | [], st => .ok st
  | step :: rest, st =>
    match syncWAL step st with
    | .eof st' => .ok st'
    | .err e st' => .err e st'
    | .ok st' => syncLoop rest st'

/-- Tail of `Sync`: the WAL loop followed by the compression sweep (guarded by
a nonempty generation name). -/
def syncTail (env : SyncEnv) (generation : String) (st : RState) : SyncResult :=
  match syncLoop env.steps st with
  | .err e st' => .err e st'
  | .ok st' =>
    if generation ≠ "" then
      match compress env.compEnv st'.fs generation with
      | .error e => .err (.wrap "cannot compress" e) st'
      | .ok fs2 => .ok { st' with fs := fs2 }
    else .ok st'

/-- Position-determination step of `Sync`: when the cached position is zero,
recompute it with `CalcPos` and cache it. -/
def syncPos (env : SyncEnv) (generation : String) (st : RState) : SyncResult :=
  if (LastPos st).isZero then
    match CalcPos st.fs generation with
    | .error e => .err (.wrap "cannot determine replica position" e) st
    | .ok pos => syncTail env generation { st with pos := pos }
  else syncTail env generation st

/-- `Sync` (replica.go): resolve the database position (failing on none),
snapshot when the generation has no snapshot, determine the cached position
if necessary, drain the shadow WAL, then compress old WAL files. -/
def Sync (env : SyncEnv) (st : RState) : SyncResult :=
  match env.dbPos with
  | .error msg => .err (.wrap "cannot determine current generation" (.sourceErr msg)) st
  | .ok dpos =>
    if dpos.isZero then .err .noGeneration st
    else if snapshotN st.fs dpos.generation = 0 then
      match snapshot env.snapEnv st.fs dpos.generation dpos.index with
      | .error e => .err e st
      | .ok fs1 => syncPos env dpos.generation { st with fs := fs1 }
    else syncPos env dpos.generation st

/-! ## Retention -/

/-- Modelled from the spec: `FilterSnapshotsAfter` is not under src/; per the
spec it keeps the snapshots whose created-at is at or after the cutoff. -/
def FilterSnapshotsAfter (infos : List SnapshotInfo) (t : Nat) : List SnapshotInfo :=
  infos.filter (fun s => t ≤ s.createdAt)

/-- Modelled from the spec: `FindMinSnapshotByGeneration` is not under src/;
per the spec it finds the retained snapshot of earliest index within the
generation. -/
def FindMinSnapshotByGeneration (infos : List SnapshotInfo) (generation : String) :
    Option SnapshotInfo :=
  infos.foldl (fun acc s =>
    if s.generation == generation then
      match acc with
      | none => some s
      | some m => if s.index < m.index then some s else some m
    else acc) none

/-- Environment for one `EnforceRetention` call: the database position, the
current wall-clock time, and the snapshot environment for a forced
snapshot. -/
structure RetEnv where
  dbPos : Except String Pos
  now : Nat
  snapEnv : SnapEnv

/-- Whether the snapshot-pruning scan keeps an entry: unparseable names are
skipped (kept), and parseable ones survive exactly when their index is not
below the bound. -/
def keepSnapAt (index : Nat) (e : String × FileMeta) : Bool :=
  match ParseSnapshotPath e.1 with
  | none => true
  | some p => decide (index ≤ p.1)

/-- Whether the WAL-pruning scan keeps an entry. -/
def keepWalAt (index : Nat) (e : String × WalEntry) : Bool :=
  match ParseWALPath e.1 with
  | none => true
  | some p => decide (index ≤ p.1)

/-- `deleteGenerationSnapshotsBefore` (replica.go): remove every parseable
snapshot filename with index below the bound; a missing directory is fine and
unparseable names are skipped. -/
def deleteGenerationSnapshotsBefore (fs : DstFS) (generation : String) (index : Nat) : DstFS :=
  match fs.snapListing generation with
  | none => fs
  | some _ =>
    fs.updateGen generation (fun gd =>
      { gd with snapshots := gd.snapshots.map (List.filter (keepSnapAt index)) })

/-- The removal scan of `deleteGenerationWALBefore` over a wal listing:
parseable names with index below the bound are removed in order;
`os.Remove` succeeds on files and empty subdirectories and fails on nonempty
subdirectories, aborting the scan. -/
def delWalEntriesBefore (index : Nat) :
    List (String × WalEntry) → Except Err (List (String × WalEntry))
  | [] => .ok []
  | e :: rest =>
    match ParseWALPath e.1 with
    | none => (delWalEntriesBefore index rest).map (e :: ·)
    | some p =>
      if index ≤ p.1 then (delWalEntriesBefore index rest).map (e :: ·)
      else
        match e.2 with
        | .file _ => delWalEntriesBefore index rest
        | .subdir children _ =>
          if children.isEmpty then delWalEntriesBefore index rest
          else .error (.ioErr "remove")

/-- `deleteGenerationWALBefore` (replica.go): remove every parseable WAL
filename (compressed or not) with index below the bound; a missing directory
is fine. -/
def deleteGenerationWALBefore (fs : DstFS) (generation : String) (index : Nat) :
    Except Err DstFS :=
  match fs.walListing generation with
  | none => .ok fs
  | some es =>
    match delWalEntriesBefore index es with
    | .error e => .error e
    | .ok es' =>
      .ok (fs.updateGen generation (fun gd => { gd with wal := some es' }))

/-- One iteration of the retention loop for a generation: remove the whole
generation directory when it has no retained snapshot, otherwise prune
snapshots and WAL files below the earliest retained index. -/
def retentionStep (snapshots : List SnapshotInfo) (fs : DstFS) (generation : String) :
    Except Err DstFS :=
  match FindMinSnapshotByGeneration snapshots generation with
  | none => .ok (fs.removeGen generation)
  | some s =>
    let fs1 := deleteGenerationSnapshotsBefore fs generation s.index
    match deleteGenerationWALBefore fs1 generation s.index with
    | .error e => .error (.wrap "cannot delete generation wal" e)
    | .ok fs2 => .ok fs2

/-- The per-generation loop of `EnforceRetention`. -/
def retentionLoop (snapshots : List SnapshotInfo) :
    List String → DstFS → Except Err DstFS
  | [], fs => .ok fs
  | g :: rest, fs =>
    match retentionStep snapshots fs g with
    | .error e => .error e
    | .ok fs' => retentionLoop snapshots rest fs'

/-- `EnforceRetention` (replica.go): resolve the database position (failing on
none); list the snapshots and keep those within the retention window; when
none remain, force a snapshot at the current position and use it as the
single retained record; then, for each listed generation, drop it entirely
when it has no retained snapshot and otherwise prune below the earliest
retained index. -/
def EnforceRetention (retentionInterval : Nat) (env : RetEnv) (fs : DstFS) :
    Except Err DstFS :=
  match env.dbPos with
  | .error msg => .error (.wrap "cannot determine current generation" (.sourceErr msg))
  | .ok pos =>
    if pos.isZero then .error .noGeneration
    else
      let snapshots := FilterSnapshotsAfter (Snapshots fs) (env.now - retentionInterval)
      if snapshots.isEmpty then
        match snapshot env.snapEnv fs pos.generation pos.index with
        | .error e => .error (.wrap "cannot snapshot" e)
        | .ok fs1 =>
          retentionLoop [{ name := "", generation := pos.generation, index := pos.index,
                           size := 0, createdAt := 0 }] (Generations fs1) fs1
      else retentionLoop snapshots (Generations fs) fs

/-- The retained set as the spec describes it: the snapshots whose created-at
lies within the retention window, or, when that set is empty, the single
forced snapshot at the database position. -/
def retainedSet (retentionInterval : Nat) (env : RetEnv) (fs : DstFS) : List SnapshotInfo :=
  match env.dbPos with
  | .error _ => []
  | .ok pos =>
    let s := FilterSnapshotsAfter (Snapshots fs) (env.now - retentionInterval)
    if s.isEmpty then
      [{ name := "", generation := pos.generation, index := pos.index, size := 0, createdAt := 0 }]
    else s

/-! ## Supervisor state -/

/-- The value of the replica's cancel field: the no-op function installed by
`NewFileReplica`, or a context's cancel function installed by `Start`.
A `none` models a nil function field, which calling would panic. -/
inductive CancelFn where
  | noop
  | ctxCancel
deriving DecidableEq, Repr

/-- The control state of a `FileReplica` relevant to `Start` and `Stop`: the
constructor-initialized fields plus the wait-group counter. -/
structure FileReplica where
  db : Nat
  name : String
  dst : String
  pos : Pos
  wgCount : Nat
  cancel : Option CancelFn
  retentionInterval : Nat
  monitorEnabled : Bool
deriving DecidableEq, Repr

/-- The default retention interval installed by `NewFileReplica` (its value is
opaque here; only that it is some fixed constant matters). -/
def DefaultRetentionInterval : Nat := 86400

/-- `NewFileReplica` (replica.go): zero position, empty wait group, a no-op
cancel function, the default retention interval, and monitoring enabled. -/
def NewFileReplica (db : Nat) (name dst : String) : FileReplica :=
  { db, name, dst, pos := ⟨"", 0, 0⟩, wgCount := 0, cancel := some .noop,
    retentionInterval := DefaultRetentionInterval, monitorEnabled := true }

/-- What a `Stop` call does: panic on a nil cancel field, block while the wait
group is nonempty, or return with the replica state (which the no-op or
context cancel leaves untouched). -/
inductive StopResult where
  | panicked
  | blocked
  | returned (r : FileReplica)
deriving DecidableEq, Repr

/-- `Stop` (replica.go): call the cancel function, then wait on the wait
group. -/
def FileReplica.Stop (r : FileReplica) : StopResult :=
  match r.cancel with
  | none => .panicked
  | some _ => if r.wgCount = 0 then .returned r else .blocked

/-- `Start` (replica.go): a no-op when monitoring is disabled; otherwise stop
any previous run, install a fresh cancellation and launch the two
background activities (`none` when the inner `Stop` would block or
panic). -/
def FileReplica.Start (r : FileReplica) : Option FileReplica :=
  if !r.monitorEnabled then some r
  else
    match r.Stop with
    | .returned r' => some { r' with cancel := some .ctxCancel, wgCount := 2 }
    | _ => none

deriving instance DecidableEq for Except

/-! ## Wellformedness and statement-side helpers -/

/-- A generation directory whose listings carry no duplicate filenames (true
of every directory a real filesystem can return). -/
def GenDir.wfListings (gd : GenDir) : Prop :=
  ((gd.snapshots.getD []).map (·.1)).Nodup ∧ ((gd.wal.getD []).map (·.1)).Nodup

/-- A destination tree whose listings carry no duplicate names. -/
def DstFS.WF (fs : DstFS) : Prop :=
  ((fs.generations.getD []).map (·.1)).Nodup ∧
  ∀ e ∈ fs.generations.getD [], e.2.wfListings

instance (gd : GenDir) : Decidable gd.wfListings := by
  unfold GenDir.wfListings
  exact inferInstance

instance (fs : DstFS) : Decidable fs.WF := by
  unfold DstFS.WF
  exact inferInstance

/-- A wal-directory entry that the `WALIndexAt` scan accepts for index i:
its name parses to i, its modification time passes the timestamp filter, and
i is at most the requested bound. -/
def walQualifies (maxIndex timestamp : Nat) (e : String × WalEntry) (i : Nat) : Prop :=
  walParseIndex e = some i ∧ (timestamp = 0 ∨ e.2.meta.mtime ≤ timestamp) ∧ i ≤ maxIndex

/-! ## Concrete states used by the closed theorems -/

/-- A valid generation name. -/
def exGen : String := "0123456789abcdef"

/-- A second valid generation name. -/
def exGenB : String := "00aa00aa00aa00aa"

/-- A destination tree holding one generation with one snapshot and two
sealed-plus-active WAL files, exactly as the replica lays them out. -/
def bugFS : DstFS :=
  ⟨some [(exGen,
    { isDir := true,
      snapshots := some [("0000000000000001.snapshot.gz", ⟨100, 50⟩)],
      wal := some [("0000000000000001.wal", .file ⟨10, 51⟩),
                   ("0000000000000002.wal", .file ⟨5, 52⟩)] })]⟩

/-- Replica state over `bugFS` with a cached nonzero position at the active
WAL. -/
def bugSt : RState := ⟨⟨exGen, 2, 5⟩, bugFS⟩

/-- A sync environment whose source reports position (exGen, 2, 5), whose
shadow reader immediately reports end of stream, and in which every
filesystem step succeeds and cancellation never fires. -/
def bugEnv : SyncEnv :=
  { dbPos := .ok ⟨exGen, 2, 5⟩,
    snapEnv := ⟨true, true, ⟨0, 0⟩⟩,
    steps := [],
    compEnv := ⟨none, fun _ => true, fun _ => true, fun _ => ⟨0, 0⟩⟩ }

/-- A destination tree whose only WAL entry at the maximal index exists only
in compressed form. -/
def cexCalcPosFS : DstFS :=
  ⟨some [(exGen,
    { isDir := true,
      snapshots := some [("0000000000000001.snapshot.gz", ⟨100, 50⟩)],
      wal := some [("0000000000000002.wal.gz", .file ⟨7, 60⟩)] })]⟩

/-- The empty destination tree (dst/generations does not exist). -/
def emptyFS : DstFS := ⟨none⟩

/-- A snapshot environment in which the read transaction and the compression
succeed. -/
def wSnapEnvOk : SnapEnv := ⟨true, true, ⟨1, 1⟩⟩

/-- A reader step whose shadow reader succeeds but whose fsync fails. -/
def wStep3 : ReaderStep :=
  { result := .ok ⟨⟨exGen, 3, 0⟩, 4⟩, mkdirOk := true, openOk := true, seekOk := true,
    copyOk := true, fsyncOk := false, closeOk := true, mtime := 77 }

/-- A replica state with a cached nonzero position over an empty tree. -/
def wSt3 : RState := ⟨⟨exGen, 2, 9⟩, emptyFS⟩

/-- A compression environment whose cancellation token fires at the second
loop iteration and in which every filesystem step succeeds. -/
def wCompEnv9 : CompressEnv :=
  ⟨some 1, fun _ => true, fun _ => true, fun _ => ⟨2, 99⟩⟩

/-- Sweep items naming one child inside each of two subdirectories. -/
def wItems9 : List (String × String) := [("d1", "a.wal"), ("d2", "b.wal")]

/-- A tree whose wal directory holds two subdirectories with one child
each (the only shape on which the sweep has items at all). -/
def wFS9 : DstFS :=
  ⟨some [(exGen,
    { isDir := true,
      snapshots := none,
      wal := some [("d1", .subdir [("a.wal", ⟨3, 1⟩)] ⟨0, 1⟩),
                   ("d2", .subdir [("b.wal", ⟨4, 2⟩)] ⟨0, 2⟩)] })]⟩

/-- A tree with one snapshot at index 1 and one uncompressed WAL file at
index 1 of size 10. -/
def wFS4 : DstFS :=
  ⟨some [(exGen,
    { isDir := true,
      snapshots := some [("0000000000000001.snapshot.gz", ⟨9, 10⟩)],
      wal := some [("0000000000000001.wal", .file ⟨10, 11⟩)] })]⟩

/-- A tree with a single WAL file at index 3. -/
def wFS5 : DstFS :=
  ⟨some [(exGen,
    { isDir := true,
      snapshots := none,
      wal := some [("0000000000000003.wal", .file ⟨6, 5⟩)] })]⟩

/-- A tree with two snapshots at indices 1 and 2, the one at index 2 being
the newest. -/
def wFS6 : DstFS :=
  ⟨some [(exGen,
    { isDir := true,
      snapshots := some [("0000000000000001.snapshot.gz", ⟨9, 10⟩),
                         ("0000000000000002.snapshot.gz", ⟨9, 20⟩)],
      wal := none })]⟩

/-- A generation directory holding one out-of-window snapshot and one WAL
file. -/
def wRetGdB : GenDir :=
  { isDir := true,
    snapshots := some [("0000000000000001.snapshot.gz", ⟨25, 100⟩)],
    wal := some [("0000000000000001.wal", .file ⟨9, 102⟩)] }

/-- A tree with two generations: one with snapshots at indices 1 and 2 (only
the second inside the retention window) and both WAL variants, and one with
only out-of-window content. -/
def wRetFS : DstFS :=
  ⟨some [(exGen,
    { isDir := true,
      snapshots := some [("0000000000000001.snapshot.gz", ⟨30, 100⟩),
                         ("0000000000000002.snapshot.gz", ⟨40, 950⟩)],
      wal := some [("0000000000000001.wal.gz", .file ⟨8, 101⟩),
                   ("0000000000000002.wal", .file ⟨12, 951⟩)] }),
    (exGenB, wRetGdB)]⟩

/-- A retention environment at time 1000 with the database positioned at the
first generation's index 2. -/
def wRetEnv : RetEnv :=
  { dbPos := .ok ⟨exGen, 2, 0⟩, now := 1000, snapEnv := wSnapEnvOk }

/-- The tree `EnforceRetention` leaves behind on `wRetFS`: the second
generation is gone and the first keeps only index 2. -/
def wRetFS' : DstFS :=
  ⟨some [(exGen,
    { isDir := true,
      snapshots := some [("0000000000000002.snapshot.gz", ⟨40, 950⟩)],
      wal := some [("0000000000000002.wal", .file ⟨12, 951⟩)] })]⟩

/-! ## Supporting lemmas and theorems -/

/-- Each regular-file entry of the wal directory contributes nothing to the
glob of the compression sweep. -/
theorem flatMap_walEntryGlob_nil (L : List (String × WalEntry))
    (h : ∀ e ∈ L, ∃ m, e.2 = WalEntry.file m) :
    L.flatMap walEntryGlob = [] := by
  induction L with
  | nil => rfl
  | cons e rest ih =>
    obtain ⟨m, hm⟩ := h e (List.mem_cons_self e rest)
    have he : walEntryGlob e = [] := by
      unfold walEntryGlob
      rw [hm]
    rw [List.flatMap_cons, he, List.nil_append,
      ih (fun x hx => h x (List.mem_cons_of_mem e hx))]

/-- On a wal directory whose entries are all regular files — the only layout
the replica itself ever produces — the glob of the compression sweep matches
nothing, so `compress` succeeds without touching the tree. -/
theorem compress_noop_on_flat_wal_dir (cenv : CompressEnv) (fs : DstFS) (gen : String)
    (h : ∀ L, fs.walListing gen = some L → ∀ e ∈ L, ∃ m, e.2 = WalEntry.file m) :
    compress cenv fs gen = .ok fs := by
  have hglob : compressGlob fs gen = [] := by
    unfold compressGlob
    cases hL : fs.walListing gen with
    | none => rfl
    | some L => exact flatMap_walEntryGlob_nil L (h L hL)
  unfold compress
  rw [hglob]
  rfl

/-- C1: the claim fails on the code.  A completed, successful `Sync` leaves
every previously uncompressed WAL file uncompressed: the sweep's glob pattern
wal-dir/**/*.wal only matches names one directory level below the WAL
directory, so it never selects the replica's WAL files and `compress` never
compresses anything.  Concretely, `Sync` succeeds on a generation holding
uncompressed WAL files at indices 1 and 2 and returns the state unchanged:
index 1 is strictly below the highest index 2, yet its file keeps its
uncompressed form and no gzip variant appears. -/
theorem sync_success_leaves_sealed_wals_uncompressed :
    Sync bugEnv bugSt = .ok bugSt ∧
    bugSt.fs.statWalEntry exGen "0000000000000001.wal" = some (.file ⟨10, 51⟩) ∧
    bugSt.fs.statWalEntry exGen "0000000000000002.wal" = some (.file ⟨5, 52⟩) ∧
    bugSt.fs.statWalEntry exGen "0000000000000001.wal.gz" = none :=
  ⟨by decide, by decide, by decide, by decide⟩

/-- C10: calling Stop on a replica on which Start has never run is safe, and
likewise after a Start that was a no-op because monitoring is disabled: the
constructor installs a no-op cancel function and the wait group is empty, so
Stop returns at once, without panicking and without changing any state. -/
theorem stop_without_start_is_safe (db : Nat) (name dst : String) :
    (NewFileReplica db name dst).Stop = .returned (NewFileReplica db name dst) ∧
    ({ NewFileReplica db name dst with monitorEnabled := false } : FileReplica).Start =
      some { NewFileReplica db name dst with monitorEnabled := false } ∧
    ({ NewFileReplica db name dst with monitorEnabled := false } : FileReplica).Stop =
      .returned { NewFileReplica db name dst with monitorEnabled := false } :=
  ⟨rfl, rfl, rfl⟩

/-- C7: when a snapshot file already exists at the path for the given
generation and index, and the checkpoint-blocking read transaction is
acquired, the snapshot operation returns success without writing: the
destination tree it returns is, byte for byte, the tree it was given. -/
theorem snapshot_existing_file_is_noop (env : SnapEnv) (fs : DstFS) (generation : String)
    (index : Nat) (htx : env.txOk = true)
    (hex : (fs.statSnapshotFile generation (snapshotFileName index)).isSome = true) :
    snapshot env fs generation index = .ok fs := by
  unfold snapshot
  rw [htx, hex]
  simp

/-- Witness for C7 at a concrete input: the tree already holds the snapshot
file for index 1. -/
theorem snapshot_existing_file_is_noop_witness :
    wSnapEnvOk.txOk = true ∧
    (bugFS.statSnapshotFile exGen (snapshotFileName 1)).isSome = true ∧
    snapshot wSnapEnvOk bugFS exGen 1 = .ok bugFS :=
  ⟨rfl, by decide, snapshot_existing_file_is_noop wSnapEnvOk bugFS exGen 1 rfl (by decide)⟩

/-- C8: WALReader opens the uncompressed WAL file for the index when it
exists; otherwise, when only the compressed variant exists, it returns a
gzip-decoding reader over it; when neither exists it fails with the
not-exist error. -/
theorem walreader_prefers_plain_then_gzip_else_notexist (fs : DstFS) (generation : String)
    (index : Nat) :
    (∀ e, fs.statWalEntry generation (walFileName index) = some e →
      WALReader fs generation index = .ok (.plain e.meta)) ∧
    (fs.statWalEntry generation (walFileName index) = none →
      (∀ e, fs.statWalEntry generation (walFileName index ++ ".gz") = some e →
        WALReader fs generation index = .ok (.gzip e.meta)) ∧
      (fs.statWalEntry generation (walFileName index ++ ".gz") = none →
        WALReader fs generation index = .error .notExist)) := by
  refine ⟨?_, fun hnone => ⟨?_, ?_⟩⟩
  · intro e he
    unfold WALReader
    rw [he]
  · intro e he
    unfold WALReader
    rw [hnone, he]
  · intro hgz
    unfold WALReader
    rw [hnone, hgz]

/-- Witness for C8 at a concrete input: index 2 exists only in compressed
form, so the reader is the gzip decoder over it. -/
theorem walreader_prefers_plain_then_gzip_else_notexist_witness :
    cexCalcPosFS.statWalEntry exGen (walFileName 2) = none ∧
    cexCalcPosFS.statWalEntry exGen (walFileName 2 ++ ".gz") = some (.file ⟨7, 60⟩) ∧
    WALReader cexCalcPosFS exGen 2 = .ok (.gzip ⟨7, 60⟩) :=
  ⟨by decide, by decide,
    ((walreader_prefers_plain_then_gzip_else_notexist cexCalcPosFS exGen 2).2
      (by decide)).1 (.file ⟨7, 60⟩) (by decide)⟩

/-- C4, counterexample: the claim says CalcPos returns the position at the
maximal WAL index with that file's size, but when the file at the maximal
index exists only in compressed form the stat of the uncompressed path
fails and CalcPos returns its error instead of a position. -/
theorem calcpos_fails_when_max_wal_only_compressed :
    CalcPos cexCalcPosFS exGen = .error .notExist := by decide

/-- C5, counterexample: the claim says a missing WAL directory with a
non-sentinel maxIndex fails with an index-not-found error, but the code
returns index 0 with no error before the maxIndex check. -/
theorem walindexat_missing_dir_returns_zero_no_error :
    WALIndexAt emptyFS exGen 5 0 = .ok 0 := by decide

/-- C3: the cached position is updated to the reader's position only after
seek, copy, fsync and close have all succeeded; on end of stream or on any
failure (reader, mkdir, open, seek, copy, fsync or close) the position
observable through LastPos is exactly what it was before the call, and a
failing seek, copy, fsync or close always surfaces as an error. -/
theorem syncwal_advances_pos_only_after_full_success (step : ReaderStep) (st : RState) :
    (∀ e st', syncWAL step st = .err e st' → LastPos st' = LastPos st) ∧
    (∀ st', syncWAL step st = .eof st' → LastPos st' = LastPos st) ∧
    (∀ st', syncWAL step st = .ok st' →
      ∃ rd, step.result = .ok rd ∧ LastPos st' = rd.pos ∧
        step.seekOk = true ∧ step.copyOk = true ∧
        step.fsyncOk = true ∧ step.closeOk = true) ∧
    (∀ rd, step.result = .ok rd →
      (step.seekOk = false ∨ step.copyOk = false ∨
       step.fsyncOk = false ∨ step.closeOk = false) →
      ∃ e st', syncWAL step st = .err e st' ∧ LastPos st' = LastPos st) := by
  obtain ⟨res, mk, op, se, co, fy, cl, mt⟩ := step
  refine ⟨?_, ?_, ?_, ?_⟩
  · intro e st' h
    cases res with
    | eof => simp only [syncWAL] at h; cases h
    | fail msg => simp only [syncWAL] at h; cases h; rfl
    | ok rd =>
      cases hstat : st.fs.statWalEntry rd.pos.generation (walFileName rd.pos.index) with
      | none =>
        cases mk <;> cases op <;> cases se <;> cases co <;> cases fy <;> cases cl <;>
          simp only [syncWAL, hstat] at h <;> (try cases h) <;> (try rfl)
      | some w =>
        cases w <;>
          (cases mk <;> cases op <;> cases se <;> cases co <;> cases fy <;> cases cl <;>
            simp only [syncWAL, hstat] at h <;> (try cases h) <;> (try rfl))
  · intro st' h
    cases res with
    | eof => simp only [syncWAL] at h; cases h; rfl
    | fail msg => simp only [syncWAL] at h; cases h
    | ok rd =>
      cases hstat : st.fs.statWalEntry rd.pos.generation (walFileName rd.pos.index) with
      | none =>
        cases mk <;> cases op <;> cases se <;> cases co <;> cases fy <;> cases cl <;>
          simp only [syncWAL, hstat] at h <;> (try cases h) <;> (try rfl)
      | some w =>
        cases w <;>
          (cases mk <;> cases op <;> cases se <;> cases co <;> cases fy <;> cases cl <;>
            simp only [syncWAL, hstat] at h <;> (try cases h) <;> (try rfl))
  · intro st' h
    cases res with
    | eof => simp only [syncWAL] at h; cases h
    | fail msg => simp only [syncWAL] at h; cases h
    | ok rd =>
      cases hstat : st.fs.statWalEntry rd.pos.generation (walFileName rd.pos.index) with
      | none =>
        cases mk <;> cases op <;> cases se <;> cases co <;> cases fy <;> cases cl <;>
          simp only [syncWAL, hstat] at h <;> (try cases h) <;>
          exact ⟨rd, rfl, rfl, rfl, rfl, rfl, rfl⟩
      | some w =>
        cases w <;>
          (cases mk <;> cases op <;> cases se <;> cases co <;> cases fy <;> cases cl <;>
            simp only [syncWAL, hstat] at h <;> (try cases h) <;>
            exact ⟨rd, rfl, rfl, rfl, rfl, rfl, rfl⟩)
  · intro rd hrd hflag
    cases res with
    | eof => cases hrd
    | fail msg => cases hrd
    | ok rdx =>
      injection hrd with heq
      subst heq
      cases hstat : st.fs.statWalEntry rdx.pos.generation (walFileName rdx.pos.index) with
      | none =>
        cases mk <;> cases op <;> cases se <;> cases co <;> cases fy <;> cases cl <;>
          simp only [syncWAL, hstat] <;>
          first
            | exact ⟨_, _, rfl, rfl⟩
            | (rcases hflag with hh | hh | hh | hh <;> cases hh)
      | some w =>
        cases w <;>
          (cases mk <;> cases op <;> cases se <;> cases co <;> cases fy <;> cases cl <;>
            simp only [syncWAL, hstat] <;>
            first
              | exact ⟨_, _, rfl, rfl⟩
              | (rcases hflag with hh | hh | hh | hh <;> cases hh))

/-- Witness for C3 at a concrete input: the reader succeeds but fsync fails,
so syncWAL reports an error and the position is unchanged. -/
theorem syncwal_advances_pos_only_after_full_success_witness :
    wStep3.result = .ok ⟨⟨exGen, 3, 0⟩, 4⟩ ∧
    ∃ e st', syncWAL wStep3 wSt3 = .err e st' ∧ LastPos st' = LastPos wSt3 :=
  ⟨rfl,
    (syncwal_advances_pos_only_after_full_success wStep3 wSt3).2.2.2 ⟨⟨exGen, 3, 0⟩, 4⟩ rfl
      (Or.inr (Or.inr (Or.inl rfl)))⟩

/-- The compression loop under a cancellation token that fires at iteration k:
provided the iterations before k succeed, the loop returns a nil error with
exactly the items before k processed. -/
theorem compressLoop_cancel_aux (cenv : CompressEnv) (gen : String)
    (items : List (String × String)) : ∀ (c k : Nat) (fs : DstFS),
    cenv.cancelAt = some k → c ≤ k →
    (∀ j, c ≤ j → j < k → cenv.fileOk j = true ∧ cenv.removeOk j = true) →
    compressLoop cenv gen c fs items = .ok (compressApply cenv gen c fs (items.take (k - c))) := by
  induction items with
  | nil =>
    intro c k fs hc hck hok
    simp [compressLoop, compressApply]
  | cons dc rest ih =>
    intro c k fs hc hck hok
    rcases Nat.eq_or_lt_of_le hck with heq | hlt
    · subst heq
      have hfired : cenv.fired c = true := by
        simp [CompressEnv.fired, hc]
      simp [compressLoop, hfired, Nat.sub_self, compressApply]
    · have hnf : cenv.fired c = false := by
        simp [CompressEnv.fired, hc]
        exact Nat.lt_iff_add_one_le.mp hlt
      have h1 := hok c (Nat.le_refl c) hlt
      have htake : (dc :: rest).take (k - c) = dc :: rest.take (k - (c + 1)) := by
        have : k - c = (k - (c + 1)) + 1 := by omega
        rw [this, List.take_succ_cons]
      rw [htake]
      show compressLoop cenv gen c fs (dc :: rest) =
        .ok (compressApply cenv gen (c + 1)
          ((fs.insertWalChild gen dc.1 (dc.2 ++ ".gz") (cenv.gzMeta c)).removeWalChild gen dc.1 dc.2)
          (rest.take (k - (c + 1))))
      unfold compressLoop
      rw [hnf, h1.1, h1.2]
      simp only [Bool.not_true, Bool.false_eq_true, if_false]
      exact ih (c + 1) k _ hc hlt (fun j hj1 hj2 => hok j (Nat.le_of_succ_le hj1) hj2)

/-- C9: when the cancellation token fires between items of the compression
sweep (at iteration k, the earlier iterations having succeeded), the loop
returns a nil error with only the first k items compressed — the remaining
items are left untouched — and `compress` itself also reports success, so a
Sync whose sweep is cancelled mid-way reports success to its caller. -/
theorem compress_cancellation_returns_nil_error (cenv : CompressEnv) (gen : String)
    (fs : DstFS) (items : List (String × String)) (k : Nat)
    (hc : cenv.cancelAt = some k)
    (hok : ∀ j, j < k → cenv.fileOk j = true ∧ cenv.removeOk j = true) :
    compressLoop cenv gen 0 fs items = .ok (compressApply cenv gen 0 fs (items.take k)) ∧
    ∃ fs', compress cenv fs gen = .ok fs' := by
  have hmain : ∀ (fs0 : DstFS) (l : List (String × String)),
      compressLoop cenv gen 0 fs0 l = .ok (compressApply cenv gen 0 fs0 (l.take k)) := by
    intro fs0 l
    have := compressLoop_cancel_aux cenv gen l 0 k fs0 hc (Nat.zero_le k)
      (fun j _ hj => hok j hj)
    simpa using this
  refine ⟨hmain fs items, ?_⟩
  unfold compress
  by_cases hlen : (compressGlob fs gen).length ≤ 1
  · simp only [hlen, if_true]
    exact ⟨fs, rfl⟩
  · simp only [hlen, if_false]
    exact ⟨_, hmain fs ((sortItems gen (compressGlob fs gen)).dropLast)⟩

/-- Witness for C9 at a concrete input: two sweep items, cancellation firing
at the second; the loop reports success with only the first item
compressed. -/
theorem compress_cancellation_returns_nil_error_witness :
    wCompEnv9.cancelAt = some 1 ∧
    compressLoop wCompEnv9 exGen 0 wFS9 wItems9 =
      .ok (compressApply wCompEnv9 exGen 0 wFS9 (wItems9.take 1)) ∧
    ∃ fs', compress wCompEnv9 wFS9 exGen = .ok fs' := by
  have h := compress_cancellation_returns_nil_error wCompEnv9 exGen wFS9 wItems9 1 rfl
    (fun j hj => ⟨rfl, rfl⟩)
  exact ⟨rfl, h.1, h.2⟩

/-- One-step unfolding of the `WALIndexAt` scan. -/
theorem walIndexAtAux_cons (maxIndex timestamp a : Nat) (e : String × WalEntry)
    (rest : List (String × WalEntry)) :
    walIndexAtAux maxIndex timestamp a (e :: rest) =
      match ParseWALPath e.1 with
      | none => walIndexAtAux maxIndex timestamp a rest
      | some p =>
        if timestamp ≠ 0 && e.2.meta.mtime > timestamp then
          walIndexAtAux maxIndex timestamp a rest
        else if p.1 > maxIndex then walIndexAtAux maxIndex timestamp a rest
        else if p.1 < a then walIndexAtAux maxIndex timestamp a rest
        else walIndexAtAux maxIndex timestamp p.1 rest := rfl

/-- Characterization of the `WALIndexAt` scan: starting from accumulator a,
the scan returns either a itself or a qualifying index; the accumulator never
decreases; and every qualifying index of the listing is bounded by the
result. -/
theorem walIndexAtAux_spec (maxIndex timestamp : Nat) (es : List (String × WalEntry)) :
    ∀ a : Nat,
      (walIndexAtAux maxIndex timestamp a es = a ∨
        ∃ e ∈ es, walQualifies maxIndex timestamp e (walIndexAtAux maxIndex timestamp a es)) ∧
      a ≤ walIndexAtAux maxIndex timestamp a es ∧
      (∀ e ∈ es, ∀ i, walQualifies maxIndex timestamp e i →
        i ≤ walIndexAtAux maxIndex timestamp a es) := by
  induction es with
  | nil =>
    intro a
    refine ⟨Or.inl rfl, Nat.le_refl a, ?_⟩
    intro e he
    cases he
  | cons e rest ih =>
    intro a
    have hskip : ∀ (hq : ∀ i, ¬ walQualifies maxIndex timestamp e i)
        (hunf : walIndexAtAux maxIndex timestamp a (e :: rest) =
          walIndexAtAux maxIndex timestamp a rest),
        (walIndexAtAux maxIndex timestamp a (e :: rest) = a ∨
          ∃ x ∈ e :: rest,
            walQualifies maxIndex timestamp x (walIndexAtAux maxIndex timestamp a (e :: rest))) ∧
        a ≤ walIndexAtAux maxIndex timestamp a (e :: rest) ∧
        (∀ x ∈ e :: rest, ∀ i, walQualifies maxIndex timestamp x i →
          i ≤ walIndexAtAux maxIndex timestamp a (e :: rest)) := by
      intro hq hunf
      obtain ⟨h1, h2, h3⟩ := ih a
      rw [hunf]
      refine ⟨?_, h2, ?_⟩
      · rcases h1 with h | ⟨x, hx, hqx⟩
        · exact Or.inl h
        · exact Or.inr ⟨x, List.mem_cons_of_mem e hx, hqx⟩
      · intro x hx i hqi
        rcases List.mem_cons.mp hx with rfl | hx'
        · exact absurd hqi (hq i)
        · exact h3 x hx' i hqi
    cases hp : ParseWALPath e.1 with
    | none =>
      refine hskip ?_ ?_
      · intro i hqi
        rw [walQualifies, walParseIndex, hp] at hqi
        cases hqi.1
      · rw [walIndexAtAux_cons, hp]
    | some p =>
      by_cases ht : (timestamp ≠ 0 && decide (e.2.meta.mtime > timestamp)) = true
      · have ht' : timestamp ≠ 0 ∧ timestamp < e.2.meta.mtime := by
          rw [Bool.and_eq_true, decide_eq_true_eq, decide_eq_true_eq] at ht
          exact ht
        refine hskip ?_ ?_
        · intro i hqi
          rcases hqi.2.1 with h0 | hle
          · exact ht'.1 h0
          · exact absurd hle (Nat.not_le.mpr ht'.2)
        · rw [walIndexAtAux_cons, hp]
          dsimp only
          rw [if_pos ht]
      · have hpi : walParseIndex e = some p.1 := by
          rw [walParseIndex, hp]
          rfl
        have htok : timestamp = 0 ∨ e.2.meta.mtime ≤ timestamp := by
          rw [Bool.and_eq_true, decide_eq_true_eq, decide_eq_true_eq] at ht
          by_cases h0 : timestamp = 0
          · exact Or.inl h0
          · exact Or.inr (Nat.not_lt.mp (fun hlt => ht ⟨h0, hlt⟩))
        by_cases hmx : p.1 > maxIndex
        · refine hskip ?_ ?_
          · intro i hqi
            have hip : i = p.1 := by
              have := hqi.1
              rw [hpi] at this
              exact (Option.some.injEq _ _ ▸ this).symm ▸ rfl
            exact absurd hqi.2.2 (hip ▸ Nat.not_le.mpr hmx)
          · rw [walIndexAtAux_cons, hp]
            dsimp only
            rw [if_neg ht, if_pos hmx]
        · have hqe : walQualifies maxIndex timestamp e p.1 :=
            ⟨hpi, htok, Nat.not_lt.mp (by simpa using hmx)⟩
          have hqonly : ∀ i, walQualifies maxIndex timestamp e i → i = p.1 := by
            intro i hqi
            have := hqi.1
            rw [hpi] at this
            exact (Option.some.inj this).symm
          by_cases hlt : p.1 < a
          · have hunf : walIndexAtAux maxIndex timestamp a (e :: rest) =
                walIndexAtAux maxIndex timestamp a rest := by
              rw [walIndexAtAux_cons, hp]
              dsimp only
              rw [if_neg ht, if_neg hmx, if_pos hlt]
            obtain ⟨h1, h2, h3⟩ := ih a
            rw [hunf]
            refine ⟨?_, h2, ?_⟩
            · rcases h1 with h | ⟨x, hx, hqx⟩
              · exact Or.inl h
              · exact Or.inr ⟨x, List.mem_cons_of_mem e hx, hqx⟩
            · intro x hx i hqi
              rcases List.mem_cons.mp hx with rfl | hx'
              · exact Nat.le_trans (Nat.le_of_lt ((hqonly i hqi) ▸ hlt)) h2
              · exact h3 x hx' i hqi
          · have hunf : walIndexAtAux maxIndex timestamp a (e :: rest) =
                walIndexAtAux maxIndex timestamp p.1 rest := by
              rw [walIndexAtAux_cons, hp]
              dsimp only
              rw [if_neg ht, if_neg hmx, if_neg hlt]
            obtain ⟨h1, h2, h3⟩ := ih p.1
            rw [hunf]
            refine ⟨?_, Nat.le_trans (Nat.not_lt.mp hlt) h2, ?_⟩
            · rcases h1 with h | ⟨x, hx, hqx⟩
              · refine Or.inr ⟨e, List.mem_cons_self e rest, ?_⟩
                rw [h]
                exact hqe
              · exact Or.inr ⟨x, List.mem_cons_of_mem e hx, hqx⟩
            · intro x hx i hqi
              rcases List.mem_cons.mp hx with rfl | hx'
              · exact Nat.le_trans (Nat.le_of_eq (hqonly i hqi)) h2
              · exact h3 x hx' i hqi

/-- C5 (amended): with a non-sentinel maxIndex, a missing WAL directory
returns index 0 with no error; otherwise, when the requested maxIndex
qualifies the scan lands on it and it is returned with no error; when it does
not qualify and maxIndex is nonzero, WALIndexAt fails with the
index-not-found error reporting the highest qualifying index seen (0 when
none qualifies); and when maxIndex is 0 and nothing qualifies, the
zero-initialized scan coincides with maxIndex and index 0 is returned with no
error. -/
theorem walindexat_characterization (fs : DstFS) (generation : String)
    (maxIndex timestamp : Nat) (hsent : maxIndex ≠ maxInt64) :
    (fs.walListing generation = none →
      WALIndexAt fs generation maxIndex timestamp = .ok 0) ∧
    (∀ es, fs.walListing generation = some es →
      ((∃ e ∈ es, walQualifies maxIndex timestamp e maxIndex) →
        WALIndexAt fs generation maxIndex timestamp = .ok maxIndex) ∧
      ((¬ ∃ e ∈ es, walQualifies maxIndex timestamp e maxIndex) → maxIndex ≠ 0 →
        ∃ b, WALIndexAt fs generation maxIndex timestamp =
            .error (.indexNotFound maxIndex generation b) ∧
          ((b = 0 ∧ ¬ ∃ e ∈ es, ∃ i, walQualifies maxIndex timestamp e i) ∨
            ∃ e ∈ es, walQualifies maxIndex timestamp e b) ∧
          (∀ e ∈ es, ∀ i, walQualifies maxIndex timestamp e i → i ≤ b)) ∧
      ((¬ ∃ e ∈ es, ∃ i, walQualifies maxIndex timestamp e i) → maxIndex = 0 →
        WALIndexAt fs generation maxIndex timestamp = .ok 0)) := by
  constructor
  · intro hnone
    unfold WALIndexAt
    rw [hnone]
  · intro es hes
    obtain ⟨h1, h2, h3⟩ := walIndexAtAux_spec maxIndex timestamp es 0
    refine ⟨?_, ?_, ?_⟩
    · intro hq
      obtain ⟨e, he, hqe⟩ := hq
      have hge : maxIndex ≤ walIndexAtAux maxIndex timestamp 0 es := h3 e he maxIndex hqe
      have hle : walIndexAtAux maxIndex timestamp 0 es ≤ maxIndex := by
        rcases h1 with h | ⟨x, hx, hqx⟩
        · omega
        · exact hqx.2.2
      have heq : walIndexAtAux maxIndex timestamp 0 es = maxIndex := Nat.le_antisymm hle hge
      unfold WALIndexAt
      rw [hes]
      dsimp only
      rw [heq]
      simp
    · intro hq h0
      have hne : walIndexAtAux maxIndex timestamp 0 es ≠ maxIndex := by
        intro heq
        rcases h1 with h | ⟨x, hx, hqx⟩
        · omega
        · refine hq ⟨x, hx, ?_, hqx.2.1, Nat.le_refl maxIndex⟩
          rw [← heq]
          exact hqx.1
      refine ⟨walIndexAtAux maxIndex timestamp 0 es, ?_, ?_, h3⟩
      · have hcond : (decide (maxIndex ≠ maxInt64) &&
            decide (walIndexAtAux maxIndex timestamp 0 es ≠ maxIndex)) = true := by
          simp only [Bool.and_eq_true, decide_eq_true_eq]
          exact ⟨hsent, hne⟩
        unfold WALIndexAt
        rw [hes]
        dsimp only
        rw [if_pos hcond]
      · by_cases hany : ∃ e ∈ es, ∃ i, walQualifies maxIndex timestamp e i
        · obtain ⟨x, hx, i, hqx⟩ := hany
          rcases h1 with h | ⟨y, hy, hqy⟩
          · have hile := h3 x hx i hqx
            have hi0 : i = walIndexAtAux maxIndex timestamp 0 es := by omega
            refine Or.inr ⟨x, hx, ?_⟩
            rw [← hi0]
            exact hqx
          · exact Or.inr ⟨y, hy, hqy⟩
        · rcases h1 with h | ⟨y, hy, hqy⟩
          · exact Or.inl ⟨h, hany⟩
          · exact absurd ⟨y, hy, _, hqy⟩ hany
    · intro hnoq h0
      have hz : walIndexAtAux maxIndex timestamp 0 es = 0 := by
        rcases h1 with h | ⟨x, hx, hqx⟩
        · exact h
        · exact absurd ⟨x, hx, _, hqx⟩ hnoq
      unfold WALIndexAt
      rw [hes]
      dsimp only
      rw [hz, h0]
      simp

/-- Witness for the amended C5 at a concrete input: a WAL file at index 3 is
requested with maxIndex 3 and no time bound, so index 3 is returned with no
error. -/
theorem walindexat_characterization_witness :
    wFS5.walListing exGen = some [("0000000000000003.wal", .file ⟨6, 5⟩)] ∧
    WALIndexAt wFS5 exGen 3 0 = .ok 3 :=
  ⟨by decide,
    ((walindexat_characterization wFS5 exGen 3 0 (by decide)).2
        [("0000000000000003.wal", .file ⟨6, 5⟩)] (by decide)).1
      ⟨("0000000000000003.wal", .file ⟨6, 5⟩), by decide,
        ⟨by decide, Or.inl rfl, by decide⟩⟩⟩

/-- One-step unfolding of the running-maximum loop. -/
theorem maxIndexFold_cons {α : Type} (parse : α → Option Nat) (a : Option Nat) (e : α)
    (rest : List α) :
    maxIndexFold parse a (e :: rest) =
      match parse e with
      | none => maxIndexFold parse a rest
      | some i =>
        match a with
        | none => maxIndexFold parse (some i) rest
        | some j => maxIndexFold parse (some (if i > j then i else j)) rest := rfl

/-- The running-maximum loop yields nothing exactly when it started with
nothing and no entry parses. -/
theorem maxIndexFold_none_iff {α : Type} (parse : α → Option Nat) (es : List α) :
    ∀ a, maxIndexFold parse a es = none ↔ (a = none ∧ ∀ e ∈ es, parse e = none) := by
  induction es with
  | nil =>
    intro a
    constructor
    · intro h
      exact ⟨h, fun e he => absurd he (List.not_mem_nil e)⟩
    · intro h
      exact h.1
  | cons e rest ih =>
    intro a
    rw [maxIndexFold_cons]
    cases hp : parse e with
    | none =>
      dsimp only
      rw [ih a]
      constructor
      · intro h
        refine ⟨h.1, ?_⟩
        intro x hx
        rcases List.mem_cons.mp hx with rfl | hx'
        · exact hp
        · exact h.2 x hx'
      · intro h
        exact ⟨h.1, fun x hx => h.2 x (List.mem_cons_of_mem e hx)⟩
    | some p =>
      constructor
      · intro h
        cases a with
        | none =>
          have := (ih (some p)).mp h
          cases this.1
        | some q =>
          have := (ih (some (if p > q then p else q))).mp h
          cases this.1
      · intro h
        have := h.2 e (List.mem_cons_self e rest)
        rw [hp] at this
        cases this

/-- When the running-maximum loop yields an index, that index is the
accumulator or the parse of some entry, it bounds the accumulator, and it
bounds the parse of every entry. -/
theorem maxIndexFold_some_spec {α : Type} (parse : α → Option Nat) (es : List α) :
    ∀ a i, maxIndexFold parse a es = some i →
      (a = some i ∨ ∃ e ∈ es, parse e = some i) ∧
      (∀ j, a = some j → j ≤ i) ∧
      (∀ e ∈ es, ∀ j, parse e = some j → j ≤ i) := by
  induction es with
  | nil =>
    intro a i h
    have ha : a = some i := h
    refine ⟨Or.inl ha, ?_, ?_⟩
    · intro j hj
      rw [ha] at hj
      exact Nat.le_of_eq (Option.some.inj hj).symm
    · intro e he
      exact absurd he (List.not_mem_nil e)
  | cons e rest ih =>
    intro a i h
    rw [maxIndexFold_cons] at h
    cases hp : parse e with
    | none =>
      rw [hp] at h
      obtain ⟨h1, h2, h3⟩ := ih a i h
      refine ⟨?_, h2, ?_⟩
      · rcases h1 with ha | ⟨x, hx, hpx⟩
        · exact Or.inl ha
        · exact Or.inr ⟨x, List.mem_cons_of_mem e hx, hpx⟩
      · intro x hx j hj
        rcases List.mem_cons.mp hx with rfl | hx'
        · rw [hp] at hj
          cases hj
        · exact h3 x hx' j hj
    | some p =>
      rw [hp] at h
      cases a with
      | none =>
        obtain ⟨h1, h2, h3⟩ := ih (some p) i h
        have hpi : p ≤ i := h2 p rfl
        refine ⟨?_, ?_, ?_⟩
        · rcases h1 with ha | ⟨x, hx, hpx⟩
          · refine Or.inr ⟨e, List.mem_cons_self e rest, ?_⟩
            rw [hp]
            exact ha
          · exact Or.inr ⟨x, List.mem_cons_of_mem e hx, hpx⟩
        · intro j hj
          cases hj
        · intro x hx j hj
          rcases List.mem_cons.mp hx with rfl | hx'
          · rw [hp] at hj
            exact (Option.some.inj hj) ▸ hpi
          · exact h3 x hx' j hj
      | some q =>
        obtain ⟨h1, h2, h3⟩ := ih (some (if p > q then p else q)) i h
        have hmle : (if p > q then p else q) ≤ i := h2 _ rfl
        have hple : p ≤ i := by
          by_cases hpq : p > q
          · rw [if_pos hpq] at hmle
            exact hmle
          · rw [if_neg hpq] at hmle
            exact Nat.le_trans (Nat.le_of_not_lt hpq) hmle
        have hqle : q ≤ i := by
          by_cases hpq : p > q
          · rw [if_pos hpq] at hmle
            exact Nat.le_trans (Nat.le_of_lt hpq) hmle
          · rw [if_neg hpq] at hmle
            exact hmle
        refine ⟨?_, ?_, ?_⟩
        · rcases h1 with ha | ⟨x, hx, hpx⟩
          · have hmi : (if p > q then p else q) = i := Option.some.inj ha
            by_cases hpq : p > q
            · refine Or.inr ⟨e, List.mem_cons_self e rest, ?_⟩
              rw [hp]
              rw [if_pos hpq] at hmi
              rw [hmi]
            · refine Or.inl ?_
              rw [if_neg hpq] at hmi
              rw [hmi]
          · exact Or.inr ⟨x, List.mem_cons_of_mem e hx, hpx⟩
        · intro j hj
          exact (Option.some.inj hj) ▸ hqle
        · intro x hx j hj
          rcases List.mem_cons.mp hx with rfl | hx'
          · rw [hp] at hj
            exact (Option.some.inj hj) ▸ hple
          · exact h3 x hx' j hj

/-- The maximal attained-and-bounding index determines the result of the
running-maximum loop started from nothing. -/
theorem maxIndexFold_eq_max {α : Type} (parse : α → Option Nat) (es : List α) (m : Nat)
    (hatt : ∃ e ∈ es, parse e = some m)
    (hbnd : ∀ e ∈ es, ∀ j, parse e = some j → j ≤ m) :
    maxIndexFold parse none es = some m := by
  cases hfold : maxIndexFold parse none es with
  | none =>
    obtain ⟨e, he, hpe⟩ := hatt
    have := ((maxIndexFold_none_iff parse es none).mp hfold).2 e he
    rw [hpe] at this
    cases this
  | some r =>
    obtain ⟨h1, _, h3⟩ := maxIndexFold_some_spec parse es none r hfold
    rcases h1 with ha | ⟨x, hx, hpx⟩
    · cases ha
    · obtain ⟨e, he, hpe⟩ := hatt
      have hrm : r ≤ m := hbnd x hx r hpx
      have hmr : m ≤ r := h3 e he m hpe
      rw [Nat.le_antisymm hrm hmr]

/-- C4 (amended): when the snapshot directory exists but holds no valid
snapshot filename, CalcPos fails with the no-snapshots error; otherwise, with
si the maximal snapshot index: a missing WAL directory, or one with no
parseable WAL filename, gives (generation, si, 0); otherwise, with wi the
maximal parseable WAL index, CalcPos returns (generation, wi, size of the
uncompressed WAL file at wi) when that file exists, and fails with the stat
error when index wi exists only in compressed form. -/
theorem calcpos_characterization (fs : DstFS) (generation : String) :
    (∀ L, fs.snapListing generation = some L →
        (∀ e ∈ L, ParseSnapshotPath e.1 = none) →
        CalcPos fs generation = .error .noSnapshotsFound) ∧
    (∀ L si, fs.snapListing generation = some L →
        (∃ e ∈ L, snapParseIndex e = some si) →
        (∀ e ∈ L, ∀ j, snapParseIndex e = some j → j ≤ si) →
      (fs.walListing generation = none →
        CalcPos fs generation = .ok ⟨generation, si, 0⟩) ∧
      (∀ W, fs.walListing generation = some W →
        ((∀ e ∈ W, ParseWALPath e.1 = none) →
          CalcPos fs generation = .ok ⟨generation, si, 0⟩) ∧
        (∀ wi, (∃ e ∈ W, walParseIndex e = some wi) →
            (∀ e ∈ W, ∀ j, walParseIndex e = some j → j ≤ wi) →
          (∀ we, fs.statWalEntry generation (walFileName wi) = some we →
            CalcPos fs generation = .ok ⟨generation, wi, we.meta.size⟩) ∧
          (fs.statWalEntry generation (walFileName wi) = none →
            CalcPos fs generation = .error .notExist)))) := by
  constructor
  · intro L hL hnone
    have hfold : maxSnapIndexAux none L = none := by
      rw [maxSnapIndexAux, maxIndexFold_none_iff]
      refine ⟨rfl, ?_⟩
      intro e he
      rw [snapParseIndex, hnone e he]
      rfl
    have hms : MaxSnapshotIndex fs generation = .error .noSnapshotsFound := by
      unfold MaxSnapshotIndex
      rw [hL]
      dsimp only
      rw [hfold]
    unfold CalcPos
    rw [hms]
  · intro L si hL hatt hbnd
    have hfold : maxSnapIndexAux none L = some si :=
      maxIndexFold_eq_max snapParseIndex L si hatt hbnd
    have hms : MaxSnapshotIndex fs generation = .ok si := by
      unfold MaxSnapshotIndex
      rw [hL]
      dsimp only
      rw [hfold]
    constructor
    · intro hwal
      unfold CalcPos
      rw [hms, hwal]
    · intro W hW
      constructor
      · intro hnone
        have hwfold : maxWalIndexAux none W = none := by
          rw [maxWalIndexAux, maxIndexFold_none_iff]
          refine ⟨rfl, ?_⟩
          intro e he
          rw [walParseIndex, hnone e he]
          rfl
        unfold CalcPos
        rw [hms, hW]
        dsimp only
        rw [hwfold]
      · intro wi hwatt hwbnd
        have hwfold : maxWalIndexAux none W = some wi :=
          maxIndexFold_eq_max walParseIndex W wi hwatt hwbnd
        constructor
        · intro we hstat
          unfold CalcPos
          rw [hms, hW]
          dsimp only
          rw [hwfold]
          dsimp only
          rw [hstat]
        · intro hstat
          unfold CalcPos
          rw [hms, hW]
          dsimp only
          rw [hwfold]
          dsimp only
          rw [hstat]

/-- Witness for the amended C4 at a concrete input: one snapshot at index 1
and one uncompressed WAL file at index 1 of size 10 give position
(generation, 1, 10). -/
theorem calcpos_characterization_witness :
    wFS4.snapListing exGen = some [("0000000000000001.snapshot.gz", ⟨9, 10⟩)] ∧
    wFS4.statWalEntry exGen (walFileName 1) = some (.file ⟨10, 11⟩) ∧
    CalcPos wFS4 exGen = .ok ⟨exGen, 1, 10⟩ :=
  ⟨by decide, by decide,
    ((((calcpos_characterization wFS4 exGen).2
          [("0000000000000001.snapshot.gz", ⟨9, 10⟩)] 1 (by decide)
          ⟨("0000000000000001.snapshot.gz", ⟨9, 10⟩), by decide, by decide⟩
          (by decide)).2
        [("0000000000000001.wal", .file ⟨10, 11⟩)] (by decide)).2 1
        ⟨("0000000000000001.wal", .file ⟨10, 11⟩), by decide, by decide⟩
        (by decide)).1 (.file ⟨10, 11⟩) (by decide)⟩

/-- One-step unfolding of the `SnapshotIndexAt` scan at the zero timestamp
(no time filter applies). -/
theorem snapIndexAtAux_zero_cons (a : Option Nat × Nat) (e : String × FileMeta)
    (rest : List (String × FileMeta)) :
    snapIndexAtAux 0 a (e :: rest) =
      match ParseSnapshotPath e.1 with
      | none => snapIndexAtAux 0 a rest
      | some p =>
        if a.2 = 0 || e.2.mtime > a.2 then snapIndexAtAux 0 (some p.1, e.2.mtime) rest
        else snapIndexAtAux 0 a rest := rfl

/-- Characterization of the `SnapshotIndexAt` scan at the zero timestamp:
the recorded time dominates every parseable entry and the starting record;
an index is returned only for the accumulator pair or a parseable entry
whose time is the recorded one; and when no index is returned the
accumulator carried none and every parseable entry was rejected against a
nonzero accumulator time. -/
theorem snapIndexAtAux_zero_spec (es : List (String × FileMeta)) :
    ∀ a : Option Nat × Nat,
      (∀ e ∈ es, ∀ p, ParseSnapshotPath e.1 = some p →
        e.2.mtime ≤ (snapIndexAtAux 0 a es).2) ∧
      a.2 ≤ (snapIndexAtAux 0 a es).2 ∧
      (∀ i, (snapIndexAtAux 0 a es).1 = some i →
        (a = (some i, (snapIndexAtAux 0 a es).2) ∨
          ∃ e ∈ es, ∃ gz, ParseSnapshotPath e.1 = some (i, gz) ∧
            e.2.mtime = (snapIndexAtAux 0 a es).2)) ∧
      ((snapIndexAtAux 0 a es).1 = none →
        a.1 = none ∧ ∀ e ∈ es, ∀ p, ParseSnapshotPath e.1 = some p →
          (a.2 ≠ 0 ∧ e.2.mtime ≤ a.2)) := by
  induction es with
  | nil =>
    intro a
    refine ⟨?_, Nat.le_refl a.2, ?_, ?_⟩
    · intro e he
      exact absurd he (List.not_mem_nil e)
    · intro i hi
      refine Or.inl ?_
      rw [← hi]
      rfl
    · intro hnone
      exact ⟨hnone, fun e he => absurd he (List.not_mem_nil e)⟩
  | cons e rest ih =>
    intro a
    rw [snapIndexAtAux_zero_cons]
    cases hp : ParseSnapshotPath e.1 with
    | none =>
      dsimp only
      obtain ⟨hall, hacc, hsome, hnone⟩ := ih a
      refine ⟨?_, hacc, ?_, ?_⟩
      · intro x hx p hpx
        rcases List.mem_cons.mp hx with rfl | hx'
        · rw [hp] at hpx
          cases hpx
        · exact hall x hx' p hpx
      · intro i hi
        rcases hsome i hi with ha | ⟨x, hx, gz, hpx, hmx⟩
        · exact Or.inl ha
        · exact Or.inr ⟨x, List.mem_cons_of_mem e hx, gz, hpx, hmx⟩
      · intro hn
        obtain ⟨h1, h2⟩ := hnone hn
        refine ⟨h1, ?_⟩
        intro x hx p hpx
        rcases List.mem_cons.mp hx with rfl | hx'
        · rw [hp] at hpx
          cases hpx
        · exact h2 x hx' p hpx
    | some p =>
      dsimp only
      by_cases hcond : (a.2 = 0 || decide (e.2.mtime > a.2)) = true
      · rw [if_pos hcond]
        obtain ⟨hall, hacc, hsome, hnone⟩ := ih (some p.1, e.2.mtime)
        refine ⟨?_, ?_, ?_, ?_⟩
        · intro x hx q hqx
          rcases List.mem_cons.mp hx with rfl | hx'
          · exact hacc
          · exact hall x hx' q hqx
        · rcases Bool.or_eq_true _ _ |>.mp hcond with h0 | hgt
          · rw [decide_eq_true_eq] at h0
            rw [h0]
            exact Nat.zero_le _
          · rw [decide_eq_true_eq] at hgt
            exact Nat.le_trans (Nat.le_of_lt hgt) hacc
        · intro i hi
          rcases hsome i hi with ha | ⟨x, hx, gz, hpx, hmx⟩
          · have hip : p.1 = i := by
              have := congrArg Prod.fst ha
              exact Option.some.inj this
            refine Or.inr ⟨e, List.mem_cons_self e rest, p.2, ?_, ?_⟩
            · rw [hp, ← hip]
            · exact congrArg Prod.snd ha
          · exact Or.inr ⟨x, List.mem_cons_of_mem e hx, gz, hpx, hmx⟩
        · intro hn
          obtain ⟨h1, _⟩ := hnone hn
          cases h1
      · rw [if_neg hcond]
        have hcond' : a.2 ≠ 0 ∧ e.2.mtime ≤ a.2 := by
          rw [Bool.or_eq_true, not_or] at hcond
          obtain ⟨h1, h2⟩ := hcond
          simp only [decide_eq_true_eq] at h1 h2
          exact ⟨h1, Nat.not_lt.mp h2⟩
        obtain ⟨hall, hacc, hsome, hnone⟩ := ih a
        refine ⟨?_, hacc, ?_, ?_⟩
        · intro x hx q hqx
          rcases List.mem_cons.mp hx with rfl | hx'
          · exact Nat.le_trans hcond'.2 hacc
          · exact hall x hx' q hqx
        · intro i hi
          rcases hsome i hi with ha | ⟨x, hx, gz, hpx, hmx⟩
          · exact Or.inl ha
          · exact Or.inr ⟨x, List.mem_cons_of_mem e hx, gz, hpx, hmx⟩
        · intro hn
          obtain ⟨h1, h2⟩ := hnone hn
          refine ⟨h1, ?_⟩
          intro x hx q hqx
          rcases List.mem_cons.mp hx with rfl | hx'
          · exact hcond'
          · exact h2 x hx' q hqx

/-- A validly named generation directory entry is listed by `Generations`. -/
theorem mem_generations_of_getGen (fs : DstFS) (g : String) (gd : GenDir)
    (hg : fs.getGen g = some gd) (hname : IsGenerationName g = true)
    (hdir : gd.isDir = true) : g ∈ Generations fs := by
  unfold DstFS.getGen at hg
  cases hfs : fs.generations with
  | none =>
    rw [hfs] at hg
    cases hg
  | some es =>
    rw [hfs] at hg
    obtain ⟨pr, hfind, hpr⟩ := Option.map_eq_some'.mp hg
    have hmem : pr ∈ es := List.mem_of_find?_eq_some hfind
    have hpred := List.find?_some hfind
    have hprg : pr.1 = g := beq_iff_eq.mp hpred
    unfold Generations
    rw [hfs]
    rw [List.mem_filterMap]
    refine ⟨pr, hmem, ?_⟩
    rw [hprg, hpr, hname, hdir]
    rfl

/-- Introduction form for membership in the `Snapshots` listing. -/
theorem mem_snapshots_intro (fs : DstFS) (g : String) (L : List (String × FileMeta))
    (e : String × FileMeta) (i : Nat) (gz : Bool)
    (hmemg : g ∈ Generations fs) (hL : fs.snapListing g = some L)
    (he : e ∈ L) (hpe : ParseSnapshotPath e.1 = some (i, gz)) :
    ({ name := e.1, generation := g, index := i, size := e.2.size,
       createdAt := e.2.mtime } : SnapshotInfo) ∈ Snapshots fs := by
  unfold Snapshots
  rw [List.mem_flatMap]
  refine ⟨g, hmemg, ?_⟩
  rw [hL]
  rw [List.mem_filterMap]
  refine ⟨e, he, ?_⟩
  rw [hpe]
  rfl

/-- Elimination form for membership in the `Snapshots` listing: every record
comes from a parseable entry of its generation's snapshot directory. -/
theorem mem_snapshots_elim (fs : DstFS) (info : SnapshotInfo)
    (hinfo : info ∈ Snapshots fs) :
    ∃ L, fs.snapListing info.generation = some L ∧
      ∃ e ∈ L, ∃ gz, ParseSnapshotPath e.1 = some (info.index, gz) ∧
        e.2.mtime = info.createdAt := by
  unfold Snapshots at hinfo
  rw [List.mem_flatMap] at hinfo
  obtain ⟨g0, hg0, hmem⟩ := hinfo
  cases hL : fs.snapListing g0 with
  | none =>
    rw [hL] at hmem
    cases hmem
  | some L =>
    rw [hL] at hmem
    rw [List.mem_filterMap] at hmem
    obtain ⟨e, he, heq⟩ := hmem
    obtain ⟨p, hp, hpi⟩ := Option.map_eq_some'.mp heq
    have hgen : info.generation = g0 := by
      rw [← hpi]
    have hidx : info.index = p.1 := by
      rw [← hpi]
    have hct : info.createdAt = e.2.mtime := by
      rw [← hpi]
    refine ⟨L, by rw [hgen]; exact hL, e, he, p.2, ?_, hct.symm⟩
    rw [hidx, hp]

/-- C6: for a listed generation, SnapshotIndexAt at the zero timestamp fails
with ErrNoSnapshots exactly when the generation has no snapshot in the
Snapshots listing; and when it returns an index, that index belongs to a
snapshot record of the generation whose created-at (the file modification
time reported by Snapshots) is greatest within the generation. -/
theorem snapshot_index_at_zero_is_latest_snapshot (fs : DstFS) (g : String) (gd : GenDir)
    (hg : fs.getGen g = some gd) (hname : IsGenerationName g = true)
    (hdir : gd.isDir = true) :
    ((¬ ∃ info ∈ Snapshots fs, info.generation = g) →
      SnapshotIndexAt fs g 0 = .error .errNoSnapshots) ∧
    ((∃ info ∈ Snapshots fs, info.generation = g) →
      ∃ i, SnapshotIndexAt fs g 0 = .ok i) ∧
    (∀ i, SnapshotIndexAt fs g 0 = .ok i →
      ∃ info ∈ Snapshots fs, info.generation = g ∧ info.index = i ∧
        ∀ info2 ∈ Snapshots fs, info2.generation = g →
          info2.createdAt ≤ info.createdAt) := by
  have hgmem : g ∈ Generations fs := mem_generations_of_getGen fs g gd hg hname hdir
  refine ⟨?_, ?_, ?_⟩
  · intro hno
    cases hL : fs.snapListing g with
    | none =>
      unfold SnapshotIndexAt
      rw [hL]
    | some L =>
      obtain ⟨hall, hacc, hsome, hnone⟩ := snapIndexAtAux_zero_spec L (none, 0)
      unfold SnapshotIndexAt
      rw [hL]
      dsimp only
      cases hr : snapIndexAtAux 0 (none, 0) L with
      | mk r1 r2 =>
        cases r1 with
        | none => rfl
        | some i =>
          exfalso
          have hd := hsome i (by rw [hr])
          rcases hd with ha | ⟨e, he, gz, hpe, hme⟩
          · have hcon := congrArg Prod.fst ha
            cases hcon
          · exact hno ⟨_, mem_snapshots_intro fs g L e i gz hgmem hL he hpe, rfl⟩
  · rintro ⟨info, hinfo, hgen⟩
    obtain ⟨L, hL0, e, he, gz, hpe, hme⟩ := mem_snapshots_elim fs info hinfo
    rw [hgen] at hL0
    unfold SnapshotIndexAt
    rw [hL0]
    dsimp only
    obtain ⟨hall, hacc, hsome, hnone⟩ := snapIndexAtAux_zero_spec L (none, 0)
    cases hr : snapIndexAtAux 0 (none, 0) L with
    | mk r1 r2 =>
      cases r1 with
      | some i => exact ⟨i, rfl⟩
      | none =>
        exfalso
        have hn := hnone (by rw [hr])
        exact (hn.2 e he (info.index, gz) hpe).1 rfl
  · intro i hok
    cases hL : fs.snapListing g with
    | none =>
      unfold SnapshotIndexAt at hok
      rw [hL] at hok
      cases hok
    | some L =>
      obtain ⟨hall, hacc, hsome, hnone⟩ := snapIndexAtAux_zero_spec L (none, 0)
      unfold SnapshotIndexAt at hok
      rw [hL] at hok
      dsimp only at hok
      cases hr : snapIndexAtAux 0 (none, 0) L with
      | mk r1 r2 =>
        rw [hr] at hok
        cases r1 with
        | none => cases hok
        | some i0 =>
          cases hok
          have hd := hsome i (by rw [hr])
          rcases hd with ha | ⟨e, he, gz, hpe, hme⟩
          · have hcon := congrArg Prod.fst ha
            cases hcon
          · have hct : e.2.mtime = r2 := by
              have h := hme
              rw [hr] at h
              exact h
            refine ⟨⟨e.1, g, i, e.2.size, e.2.mtime⟩,
              mem_snapshots_intro fs g L e i gz hgmem hL he hpe, rfl, rfl, ?_⟩
            intro info2 h2 hgen2
            obtain ⟨L2, hL2, e2, he2, gz2, hpe2, hme2⟩ := mem_snapshots_elim fs info2 h2
            rw [hgen2, hL] at hL2
            have hLL : L2 = L := (Option.some.inj hL2).symm
            subst hLL
            have h2le : e2.2.mtime ≤ r2 := by
              have h := hall e2 he2 (info2.index, gz2) hpe2
              rw [hr] at h
              exact h
            show info2.createdAt ≤ e.2.mtime
            rw [← hme2, hct]
            exact h2le

/-- Witness for C6 at a concrete input: two snapshots at indices 1 and 2 with
the one at index 2 newest; SnapshotIndexAt returns 2 and the record at
index 2 has the greatest created-at. -/
theorem snapshot_index_at_zero_is_latest_snapshot_witness :
    SnapshotIndexAt wFS6 exGen 0 = .ok 2 ∧
    ∃ info ∈ Snapshots wFS6, info.generation = exGen ∧ info.index = 2 ∧
      ∀ info2 ∈ Snapshots wFS6, info2.generation = exGen →
        info2.createdAt ≤ info.createdAt :=
  ⟨by decide,
    (snapshot_index_at_zero_is_latest_snapshot wFS6 exGen
        ⟨true, some [("0000000000000001.snapshot.gz", ⟨9, 10⟩),
                     ("0000000000000002.snapshot.gz", ⟨9, 20⟩)], none⟩
        (by decide) (by decide) (by decide)).2.2 2 (by decide)⟩

/-- Boolean equality that fails is falsity of the test. -/
theorem beq_false_of_not {g2 : String} {a : String} (h : ¬ (a == g2) = true) :
    (a == g2) = false := by
  cases hb : (a == g2)
  · rfl
  · exact absurd hb h

/-- Rewriting one generation's entry rewrites exactly the looked-up entry. -/
theorem find?_map_upd (es : List (String × GenDir)) (g g2 : String) (f : GenDir → GenDir) :
    (es.map (fun e => if e.1 == g then (e.1, f e.2) else e)).find? (fun e => e.1 == g2) =
      if g2 = g then (es.find? (fun e => e.1 == g2)).map (fun e => (e.1, f e.2))
      else es.find? (fun e => e.1 == g2) := by
  induction es with
  | nil =>
    by_cases h : g2 = g
    · rw [if_pos h]
      rfl
    · rw [if_neg h]
      rfl
  | cons e rest ih =>
    have hname : ((fun x : String × GenDir =>
        if x.1 == g then (x.1, f x.2) else x) e).1 = e.1 := by
      show (if (e.1 == g) = true then (e.1, f e.2) else e).1 = e.1
      by_cases hg : (e.1 == g) = true
      · rw [if_pos hg]
      · rw [if_neg hg]
    by_cases hpe : (e.1 == g2) = true
    · have he2 : e.1 = g2 := beq_iff_eq.mp hpe
      have hL : ((e :: rest).map (fun x => if x.1 == g then (x.1, f x.2) else x)).find?
          (fun x => x.1 == g2) = some (if (e.1 == g) = true then (e.1, f e.2) else e) := by
        rw [List.map_cons]
        exact List.find?_cons_of_pos _ (by rw [hname]; exact hpe)
      have hR : (e :: rest).find? (fun x => x.1 == g2) = some e :=
        List.find?_cons_of_pos _ hpe
      rw [hL, hR]
      by_cases h : g2 = g
      · rw [if_pos h, Option.map_some']
        have heg : (e.1 == g) = true := beq_iff_eq.mpr (he2.trans h)
        rw [if_pos heg]
      · rw [if_neg h]
        have heg : (e.1 == g) = false :=
          beq_eq_false_iff_ne.mpr (fun hc => h (he2.symm.trans hc))
        rw [if_neg (by rw [heg]; exact Bool.false_ne_true)]
    · have hL : ((e :: rest).map (fun x => if x.1 == g then (x.1, f x.2) else x)).find?
          (fun x => x.1 == g2) =
          (rest.map (fun x => if x.1 == g then (x.1, f x.2) else x)).find?
            (fun x => x.1 == g2) := by
        rw [List.map_cons]
        exact List.find?_cons_of_neg _ (by rw [hname]; exact hpe)
      have hR : (e :: rest).find? (fun x => x.1 == g2) = rest.find? (fun x => x.1 == g2) :=
        List.find?_cons_of_neg _ hpe
      rw [hL, hR, ih]

/-- Looking up a generation after rewriting one generation in place. -/
theorem getGen_updateGen (fs : DstFS) (g g2 : String) (f : GenDir → GenDir) :
    (fs.updateGen g f).getGen g2 =
      if g2 = g then (fs.getGen g2).map f else fs.getGen g2 := by
  unfold DstFS.updateGen DstFS.getGen
  cases hfs : fs.generations with
  | none =>
    by_cases h : g2 = g
    · rw [if_pos h]
      rfl
    · rw [if_neg h]
      rfl
  | some es =>
    dsimp only [Option.map_some']
    rw [find?_map_upd]
    by_cases h : g2 = g
    · rw [if_pos h, if_pos h, Option.map_map, Option.map_map]
      rfl
    · rw [if_neg h, if_neg h]

/-- Filtering out one generation's entries removes exactly that lookup. -/
theorem find?_filter_out (es : List (String × GenDir)) (g g2 : String) :
    (es.filter (fun x => !(x.1 == g))).find? (fun e => e.1 == g2) =
      if g2 = g then none else es.find? (fun e => e.1 == g2) := by
  induction es with
  | nil =>
    by_cases h : g2 = g
    · rw [if_pos h]
      rfl
    · rw [if_neg h]
      rfl
  | cons e rest ih =>
    by_cases heg : (e.1 == g) = true
    · have hfil : (e :: rest).filter (fun x => !(x.1 == g)) =
          rest.filter (fun x => !(x.1 == g)) :=
        List.filter_cons_of_neg (by rw [heg]; exact fun hc => Bool.false_ne_true hc)
      rw [hfil, ih]
      by_cases h : g2 = g
      · rw [if_pos h, if_pos h]
      · rw [if_neg h, if_neg h]
        have hne : (e.1 == g2) = false :=
          beq_eq_false_iff_ne.mpr (fun hc => h (hc.symm.trans (beq_iff_eq.mp heg)))
        have hR : (e :: rest).find? (fun x => x.1 == g2) =
            rest.find? (fun x => x.1 == g2) :=
          List.find?_cons_of_neg _ (by rw [hne]; exact Bool.false_ne_true)
        rw [hR]
    · have heg' : (e.1 == g) = false := beq_false_of_not heg
      have hfil : (e :: rest).filter (fun x => !(x.1 == g)) =
          e :: rest.filter (fun x => !(x.1 == g)) :=
        List.filter_cons_of_pos (by rw [heg']; rfl)
      rw [hfil]
      by_cases hpe : (e.1 == g2) = true
      · have hL : (e :: rest.filter (fun x => !(x.1 == g))).find? (fun x => x.1 == g2) =
            some e := List.find?_cons_of_pos _ hpe
        have hR : (e :: rest).find? (fun x => x.1 == g2) = some e :=
          List.find?_cons_of_pos _ hpe
        rw [hL, hR]
        by_cases h : g2 = g
        · exfalso
          rw [beq_eq_false_iff_ne] at heg'
          exact heg' ((beq_iff_eq.mp hpe).trans h)
        · rw [if_neg h]
      · have hpe' : (e.1 == g2) = false := beq_false_of_not hpe
        have hL : (e :: rest.filter (fun x => !(x.1 == g))).find? (fun x => x.1 == g2) =
            (rest.filter (fun x => !(x.1 == g))).find? (fun x => x.1 == g2) :=
          List.find?_cons_of_neg _ (by rw [hpe']; exact Bool.false_ne_true)
        have hR : (e :: rest).find? (fun x => x.1 == g2) =
            rest.find? (fun x => x.1 == g2) :=
          List.find?_cons_of_neg _ (by rw [hpe']; exact Bool.false_ne_true)
        rw [hL, hR, ih]

/-- Looking up a generation after removing one generation's directory. -/
theorem getGen_removeGen (fs : DstFS) (g g2 : String) :
    (fs.removeGen g).getGen g2 = if g2 = g then none else fs.getGen g2 := by
  unfold DstFS.removeGen DstFS.getGen
  cases hfs : fs.generations with
  | none =>
    by_cases h : g2 = g
    · rw [if_pos h]
      rfl
    · rw [if_neg h]
      rfl
  | some es =>
    dsimp only [Option.map_some']
    rw [find?_filter_out]
    by_cases h : g2 = g
    · rw [if_pos h, if_pos h]
      rfl
    · rw [if_neg h, if_neg h]

/-- Looking up a generation after writing a snapshot file into one. -/
theorem getGen_insertSnapshotFile (fs : DstFS) (g n : String) (m : FileMeta) (g2 : String) :
    (fs.insertSnapshotFile g n m).getGen g2 =
      if g2 = g then
        some (match fs.getGen g with
          | none => ⟨true, some [(n, m)], none⟩
          | some gd => { gd with snapshots := some ((gd.snapshots.getD []) ++ [(n, m)]) })
      else fs.getGen g2 := by
  unfold DstFS.insertSnapshotFile
  cases hfs : fs.generations with
  | none =>
    have hget : fs.getGen g = none := by
      unfold DstFS.getGen
      rw [hfs]
    have hget2 : fs.getGen g2 = none := by
      unfold DstFS.getGen
      rw [hfs]
    by_cases h : g2 = g
    · subst h
      rw [if_pos rfl, hget]
      unfold DstFS.getGen
      dsimp only
      have hfind : ([((g2, ⟨true, some [(n, m)], none⟩) : String × GenDir)]).find?
          (fun e => e.1 == g2) = some (g2, ⟨true, some [(n, m)], none⟩) :=
        List.find?_cons_of_pos _ (beq_iff_eq.mpr rfl)
      rw [hfind]
      rfl
    · rw [if_neg h, hget2]
      unfold DstFS.getGen
      dsimp only
      have hfind : ([((g, ⟨true, some [(n, m)], none⟩) : String × GenDir)]).find?
          (fun e => e.1 == g2) = none := by
        rw [List.find?_eq_none]
        intro x hx
        rcases List.mem_singleton.mp hx with rfl
        intro hc
        exact h (beq_iff_eq.mp hc).symm
      rw [hfind]
      rfl
  | some es =>
    dsimp only
    by_cases hany : es.any (fun e => e.1 == g) = true
    · rw [if_pos hany]
      rw [getGen_updateGen]
      by_cases h : g2 = g
      · subst h
        have hsome : ∃ gd, fs.getGen g2 = some gd := by
          have hs := List.find?_isSome.mpr (List.any_eq_true.mp hany)
          obtain ⟨pr, hpr⟩ := Option.isSome_iff_exists.mp hs
          refine ⟨pr.2, ?_⟩
          unfold DstFS.getGen
          rw [hfs]
          dsimp only
          rw [hpr]
          rfl
        obtain ⟨gd, hgd⟩ := hsome
        rw [if_pos rfl, if_pos rfl, hgd]
        rfl
      · rw [if_neg h, if_neg h]
    · rw [if_neg hany]
      have hnone : es.find? (fun e => e.1 == g) = none := by
        rw [List.find?_eq_none]
        intro x hx hc
        exact hany (List.any_eq_true.mpr ⟨x, hx, hc⟩)
      have hget : fs.getGen g = none := by
        unfold DstFS.getGen
        rw [hfs]
        dsimp only
        rw [hnone]
        rfl
      by_cases h : g2 = g
      · subst h
        rw [if_pos rfl, hget]
        unfold DstFS.getGen
        dsimp only
        rw [List.find?_append, hnone]
        have hfind : ([((g2, ⟨true, some [(n, m)], none⟩) : String × GenDir)]).find?
            (fun e => e.1 == g2) = some (g2, ⟨true, some [(n, m)], none⟩) :=
          List.find?_cons_of_pos _ (beq_iff_eq.mpr rfl)
        rw [hfind]
        rfl
      · rw [if_neg h]
        unfold DstFS.getGen
        rw [hfs]
        dsimp only
        rw [List.find?_append]
        have hfind : ([((g, ⟨true, some [(n, m)], none⟩) : String × GenDir)]).find?
            (fun e => e.1 == g2) = none := by
          rw [List.find?_eq_none]
          intro x hx
          rcases List.mem_singleton.mp hx with rfl
          intro hc
          exact h (beq_iff_eq.mp hc).symm
        rw [hfind, Option.or_none]

/-- The successful outcomes of the snapshot operation: an untouched tree when
the file already exists, or the tree with the new snapshot file written. -/
theorem snapshot_ok_cases (env : SnapEnv) (fs fs' : DstFS) (g : String) (i : Nat)
    (h : snapshot env fs g i = .ok fs') :
    fs' = fs ∨
    (fs.statSnapshotFile g (snapshotFileName i) = none ∧
      fs' = fs.insertSnapshotFile g (snapshotFileName i) env.snapMeta) := by
  obtain ⟨txOk, cOk, sm⟩ := env
  cases txOk
  · simp [snapshot] at h
  · cases hstat : fs.statSnapshotFile g (snapshotFileName i) with
    | some v =>
      simp [snapshot, hstat] at h
      exact Or.inl h.symm
    | none =>
      cases cOk
      · simp [snapshot, hstat] at h
      · simp [snapshot, hstat] at h
        exact Or.inr ⟨rfl, h.symm⟩

/-- One-step unfolding of the WAL-pruning scan. -/
theorem delWalEntriesBefore_cons (idx : Nat) (e : String × WalEntry)
    (rest : List (String × WalEntry)) :
    delWalEntriesBefore idx (e :: rest) =
      match ParseWALPath e.1 with
      | none => (delWalEntriesBefore idx rest).map (e :: ·)
      | some p =>
        if idx ≤ p.1 then (delWalEntriesBefore idx rest).map (e :: ·)
        else
          match e.2 with
          | .file _ => delWalEntriesBefore idx rest
          | .subdir children _ =>
            if children.isEmpty then delWalEntriesBefore idx rest
            else .error (.ioErr "remove") := rfl

/-- A successful WAL-pruning scan returns exactly the kept entries. -/
theorem delWalEntriesBefore_ok (idx : Nat) : ∀ (es es' : List (String × WalEntry)),
    delWalEntriesBefore idx es = .ok es' → es' = es.filter (keepWalAt idx) := by
  intro es
  induction es with
  | nil =>
    intro es' h
    cases h
    rfl
  | cons e rest ih =>
    intro es' h
    rw [delWalEntriesBefore_cons] at h
    cases hp : ParseWALPath e.1 with
    | none =>
      rw [hp] at h
      have hkeep : keepWalAt idx e = true := by
        unfold keepWalAt
        rw [hp]
      cases hdel : delWalEntriesBefore idx rest with
      | error er =>
        rw [hdel] at h
        cases h
      | ok l =>
        rw [hdel] at h
        cases h
        rw [List.filter_cons_of_pos hkeep, ih l hdel]
    | some p =>
      rw [hp] at h
      dsimp only at h
      by_cases hle : idx ≤ p.1
      · rw [if_pos hle] at h
        have hkeep : keepWalAt idx e = true := by
          unfold keepWalAt
          rw [hp]
          exact decide_eq_true hle
        cases hdel : delWalEntriesBefore idx rest with
        | error er =>
          rw [hdel] at h
          cases h
        | ok l =>
          rw [hdel] at h
          cases h
          rw [List.filter_cons_of_pos hkeep, ih l hdel]
      · rw [if_neg hle] at h
        have hkeep : ¬ keepWalAt idx e = true := by
          unfold keepWalAt
          rw [hp]
          simp only [decide_eq_true_eq]
          exact hle
        cases hw : e.2 with
        | file m =>
          rw [hw] at h
          rw [List.filter_cons_of_neg hkeep]
          exact ih es' h
        | subdir children dm =>
          rw [hw] at h
          dsimp only at h
          by_cases hemp : children.isEmpty = true
          · rw [if_pos hemp] at h
            rw [List.filter_cons_of_neg hkeep]
            exact ih es' h
          · rw [if_neg hemp] at h
            cases h

/-- The successful outcomes of `deleteGenerationWALBefore`. -/
theorem deleteGenerationWALBefore_ok (fs fs' : DstFS) (g : String) (idx : Nat)
    (h : deleteGenerationWALBefore fs g idx = .ok fs') :
    (fs.walListing g = none ∧ fs' = fs) ∨
    (∃ es, fs.walListing g = some es ∧
      fs' = fs.updateGen g (fun gd => { gd with wal := some (es.filter (keepWalAt idx)) })) := by
  unfold deleteGenerationWALBefore at h
  cases hW : fs.walListing g with
  | none =>
    rw [hW] at h
    cases h
    exact Or.inl ⟨rfl, rfl⟩
  | some es =>
    rw [hW] at h
    dsimp only at h
    cases hdel : delWalEntriesBefore idx es with
    | error e =>
      rw [hdel] at h
      cases h
    | ok es2 =>
      rw [hdel] at h
      cases h
      refine Or.inr ⟨es, rfl, ?_⟩
      rw [← delWalEntriesBefore_ok idx es es2 hdel]

/-- One-step unfolding of the retention loop. -/
theorem retentionLoop_cons (snaps : List SnapshotInfo) (g : String) (rest : List String)
    (fs : DstFS) :
    retentionLoop snaps (g :: rest) fs =
      match retentionStep snaps fs g with
      | .error e => .error e
      | .ok fs1 => retentionLoop snaps rest fs1 := rfl

/-- Processing one generation leaves every other generation's entry
untouched. -/
theorem retentionStep_other (snaps : List SnapshotInfo) (fs fs' : DstFS) (g g2 : String)
    (hne : g2 ≠ g) (h : retentionStep snaps fs g = .ok fs') :
    fs'.getGen g2 = fs.getGen g2 := by
  unfold retentionStep at h
  cases hfm : FindMinSnapshotByGeneration snaps g with
  | none =>
    rw [hfm] at h
    cases h
    rw [getGen_removeGen, if_neg hne]
  | some s =>
    rw [hfm] at h
    dsimp only at h
    cases hdw : deleteGenerationWALBefore (deleteGenerationSnapshotsBefore fs g s.index)
        g s.index with
    | error e =>
      rw [hdw] at h
      cases h
    | ok fs2 =>
      rw [hdw] at h
      cases h
      have hg1 : (deleteGenerationSnapshotsBefore fs g s.index).getGen g2 = fs.getGen g2 := by
        unfold deleteGenerationSnapshotsBefore
        cases hsl : fs.snapListing g with
        | none => rfl
        | some L =>
          dsimp only
          rw [getGen_updateGen, if_neg hne]
      rcases deleteGenerationWALBefore_ok _ fs' g s.index hdw with ⟨_, rfl⟩ | ⟨es, hes, rfl⟩
      · exact hg1
      · rw [getGen_updateGen, if_neg hne]
        exact hg1

/-- The retention loop leaves unprocessed generations untouched. -/
theorem retentionLoop_notmem (snaps : List SnapshotInfo) : ∀ (gens : List String)
    (fs fs' : DstFS) (g2 : String), g2 ∉ gens →
    retentionLoop snaps gens fs = .ok fs' → fs'.getGen g2 = fs.getGen g2 := by
  intro gens
  induction gens with
  | nil =>
    intro fs fs' g2 hnm h
    cases h
    rfl
  | cons g rest ih =>
    intro fs fs' g2 hnm h
    rw [retentionLoop_cons] at h
    cases hstep : retentionStep snaps fs g with
    | error e =>
      rw [hstep] at h
      cases h
    | ok fs1 =>
      rw [hstep] at h
      have hne : g2 ≠ g := fun hc => hnm (hc ▸ List.mem_cons_self g rest)
      have hnm' : g2 ∉ rest := fun hc => hnm (List.mem_cons_of_mem g hc)
      rw [ih fs1 fs' g2 hnm' h]
      exact retentionStep_other snaps fs fs1 g g2 hne hstep

/-- A generation listed once is processed exactly once by the retention loop,
on a state whose entry for it is still the starting one. -/
theorem retentionLoop_mem (snaps : List SnapshotInfo) : ∀ (gens : List String)
    (fs fs' : DstFS) (g : String), g ∈ gens → gens.Nodup →
    retentionLoop snaps gens fs = .ok fs' →
    ∃ fsA fsB, fsA.getGen g = fs.getGen g ∧ retentionStep snaps fsA g = .ok fsB ∧
      fs'.getGen g = fsB.getGen g := by
  intro gens
  induction gens with
  | nil =>
    intro fs fs' g hmem
    cases hmem
  | cons gh rest ih =>
    intro fs fs' g hmem hnd h
    rw [retentionLoop_cons] at h
    cases hstep : retentionStep snaps fs gh with
    | error e =>
      rw [hstep] at h
      cases h
    | ok fs1 =>
      rw [hstep] at h
      rcases List.mem_cons.mp hmem with rfl | hmem'
      · have hnotin : g ∉ rest := (List.nodup_cons.mp hnd).1
        exact ⟨fs, fs1, rfl, hstep, retentionLoop_notmem snaps rest fs1 fs' g hnotin h⟩
      · have hne : g ≠ gh := by
          intro hc
          subst hc
          exact (List.nodup_cons.mp hnd).1 hmem'
        obtain ⟨fsA, fsB, hA, hstepA, hB⟩ := ih fs1 fs' g hmem' (List.nodup_cons.mp hnd).2 h
        exact ⟨fsA, fsB,
          hA.trans (retentionStep_other snaps fs fs1 gh g hne hstep), hstepA, hB⟩

/-- What one retention iteration does to the processed generation itself:
with no retained snapshot the entry disappears; otherwise its snapshot and
wal listings are filtered at the earliest retained index, the directory bit
surviving. -/
theorem retentionStep_self (snaps : List SnapshotInfo) (fs fs' : DstFS) (g : String)
    (h : retentionStep snaps fs g = .ok fs') :
    (FindMinSnapshotByGeneration snaps g = none → fs'.getGen g = none) ∧
    (∀ s, FindMinSnapshotByGeneration snaps g = some s →
      ∀ gd1, fs.getGen g = some gd1 →
        fs'.getGen g = some
          { isDir := gd1.isDir,
            snapshots := gd1.snapshots.map (List.filter (keepSnapAt s.index)),
            wal := gd1.wal.map (List.filter (keepWalAt s.index)) }) := by
  unfold retentionStep at h
  constructor
  · intro hfm
    rw [hfm] at h
    cases h
    rw [getGen_removeGen, if_pos rfl]
  · intro s hfm gd1 hgd1
    rw [hfm] at h
    dsimp only at h
    have h1 : (deleteGenerationSnapshotsBefore fs g s.index).getGen g =
        some { isDir := gd1.isDir,
               snapshots := gd1.snapshots.map (List.filter (keepSnapAt s.index)),
               wal := gd1.wal } := by
      unfold deleteGenerationSnapshotsBefore
      cases hsl : fs.snapListing g with
      | none =>
        have hsn : gd1.snapshots = none := by
          unfold DstFS.snapListing at hsl
          rw [hgd1] at hsl
          exact hsl
        obtain ⟨d1, sn1, w1⟩ := gd1
        cases hsn
        rw [hgd1]
        rfl
      | some L =>
        dsimp only
        rw [getGen_updateGen, if_pos rfl, hgd1]
        rfl
    cases hdw : deleteGenerationWALBefore (deleteGenerationSnapshotsBefore fs g s.index)
        g s.index with
    | error e =>
      rw [hdw] at h
      cases h
    | ok fs2 =>
      rw [hdw] at h
      cases h
      rcases deleteGenerationWALBefore_ok _ fs' g s.index hdw with ⟨hWn, rfl⟩ | ⟨es, hes, rfl⟩
      · have hwn : gd1.wal = none := by
          unfold DstFS.walListing at hWn
          rw [h1] at hWn
          exact hWn
        rw [h1, hwn]
        rfl
      · have hwes : gd1.wal = some es := by
          unfold DstFS.walListing at hes
          rw [h1] at hes
          exact hes
        rw [getGen_updateGen, if_pos rfl, h1]
        rw [hwes]
        rfl

/-- A name produced by the generation filter is the name of a listed entry. -/
theorem mem_generations_filter (es : List (String × GenDir)) (x : String)
    (h : x ∈ es.filterMap (fun e =>
      if IsGenerationName e.1 && e.2.isDir then some e.1 else none)) :
    x ∈ es.map (fun e => e.1) := by
  rw [List.mem_filterMap] at h
  obtain ⟨e, he, hx⟩ := h
  have hx1 : e.1 = x := by
    by_cases hc : (IsGenerationName e.1 && e.2.isDir) = true
    · rw [if_pos hc] at hx
      exact Option.some.inj hx
    · rw [if_neg hc] at hx
      cases hx
  rw [← hx1]
  exact List.mem_map_of_mem _ he

/-- The generation filter over a duplicate-free name list is
duplicate-free. -/
theorem gens_filter_nodup (es : List (String × GenDir))
    (h : (es.map (fun e => e.1)).Nodup) :
    (es.filterMap (fun e =>
      if IsGenerationName e.1 && e.2.isDir then some e.1 else none)).Nodup := by
  induction es with
  | nil => exact List.nodup_nil
  | cons e rest ih =>
    rw [List.map_cons, List.nodup_cons] at h
    rw [List.filterMap_cons]
    by_cases hc : (IsGenerationName e.1 && e.2.isDir) = true
    · rw [if_pos hc]
      dsimp only
      refine List.Nodup.cons ?_ (ih h.2)
      intro hmem
      exact h.1 (mem_generations_filter rest e.1 hmem)
    · rw [if_neg hc]
      exact ih h.2

/-- Distinct listing names give a duplicate-free `Generations` result. -/
theorem generations_nodup (fs : DstFS) (h : ((fs.generations.getD []).map (fun e => e.1)).Nodup) :
    (Generations fs).Nodup := by
  unfold Generations
  cases hfs : fs.generations with
  | none => exact List.nodup_nil
  | some es =>
    rw [hfs] at h
    dsimp only [Option.getD] at h
    exact gens_filter_nodup es h

/-- `updateGen`'s per-entry rewrite keeps every listing name. -/
theorem map_fst_updGen (es : List (String × GenDir)) (g : String) (f : GenDir → GenDir) :
    (es.map (fun e => if e.1 == g then (e.1, f e.2) else e)).map (fun e => e.1)
      = es.map (fun e => e.1) := by
  induction es with
  | nil => rfl
  | cons a rest ih =>
    rw [List.map_cons, List.map_cons, List.map_cons, ih]
    by_cases hg : (a.1 == g) = true
    · rw [if_pos hg]
    · rw [if_neg hg]

/-- Writing a snapshot file preserves distinctness of the generation
names. -/
theorem insertSnapshotFile_names_nodup (fs : DstFS) (g n : String) (m : FileMeta)
    (h : ((fs.generations.getD []).map (fun e => e.1)).Nodup) :
    ((((fs.insertSnapshotFile g n m).generations.getD []).map (fun e => e.1))).Nodup := by
  unfold DstFS.insertSnapshotFile
  cases hfs : fs.generations with
  | none =>
    dsimp only [Option.getD]
    exact List.nodup_singleton g
  | some es =>
    rw [hfs] at h
    dsimp only [Option.getD] at h
    dsimp only
    by_cases hany : es.any (fun e => e.1 == g) = true
    · rw [if_pos hany]
      unfold DstFS.updateGen
      rw [hfs]
      simp only [Option.map_some', Option.getD_some]
      rw [map_fst_updGen es g
        (fun gd => { gd with snapshots := some ((gd.snapshots.getD []) ++ [(n, m)]) })]
      exact h
    · rw [if_neg hany]
      dsimp only [Option.getD]
      rw [List.map_append]
      rw [List.nodup_append]
      refine ⟨h, List.nodup_singleton g, ?_⟩
      rw [List.map_singleton, List.disjoint_singleton]
      intro hmem
      rw [List.mem_map] at hmem
      obtain ⟨e, he, hx⟩ := hmem
      exact hany (List.any_eq_true.mpr ⟨e, he, beq_iff_eq.mpr hx⟩)

/-- Defaulting an optionally filtered listing commutes with the filter. -/
theorem getD_map_filter {α : Type} (o : Option (List α)) (p : α → Bool) :
    (o.map (List.filter p)).getD [] = (o.getD []).filter p := by
  cases o <;> rfl

/-- What the retention loop does to one listed generation whose starting
entry dominates a reference directory `gd`: the entry disappears when `gd`'s
generation keeps no retained snapshot, and otherwise the surviving listings
hold only entries at or above the earliest retained index while every
dominated entry at or above it survives. -/
theorem retention_loop_gen_characterization (snaps : List SnapshotInfo)
    (gens : List String) (fs1 fs' : DstFS) (gen : String) (gd gd1 : GenDir)
    (hnd : gens.Nodup) (hmem : gen ∈ gens)
    (hloop : retentionLoop snaps gens fs1 = .ok fs')
    (hgd1 : fs1.getGen gen = some gd1)
    (hsubS : ∀ e ∈ gd.snapshots.getD [], e ∈ gd1.snapshots.getD [])
    (hwal : gd1.wal = gd.wal) :
    (FindMinSnapshotByGeneration snaps gen = none → fs'.getGen gen = none) ∧
    (∀ s, FindMinSnapshotByGeneration snaps gen = some s →
      ∃ gd', fs'.getGen gen = some gd' ∧
        (∀ e ∈ gd'.snapshots.getD [], keepSnapAt s.index e = true) ∧
        (∀ e ∈ gd.snapshots.getD [], keepSnapAt s.index e = true →
          e ∈ gd'.snapshots.getD []) ∧
        (∀ e ∈ gd'.wal.getD [], keepWalAt s.index e = true) ∧
        (∀ e ∈ gd.wal.getD [], keepWalAt s.index e = true → e ∈ gd'.wal.getD [])) := by
  obtain ⟨fsA, fsB, hA, hstepA, hB⟩ :=
    retentionLoop_mem snaps gens fs1 fs' gen hmem hnd hloop
  have hself := retentionStep_self snaps fsA fsB gen hstepA
  constructor
  · intro hfm
    rw [hB]
    exact hself.1 hfm
  · intro s hfm
    have hAgd : fsA.getGen gen = some gd1 := hA.trans hgd1
    have hBgd := hself.2 s hfm gd1 hAgd
    refine ⟨_, hB.trans hBgd, ?_, ?_, ?_, ?_⟩
    · intro e he
      dsimp only at he
      rw [getD_map_filter] at he
      exact (List.mem_filter.mp he).2
    · intro e he hk
      dsimp only
      rw [getD_map_filter]
      exact List.mem_filter.mpr ⟨hsubS e he, hk⟩
    · intro e he
      dsimp only at he
      rw [getD_map_filter] at he
      exact (List.mem_filter.mp he).2
    · intro e he hk
      dsimp only
      rw [getD_map_filter, hwal]
      exact List.mem_filter.mpr ⟨he, hk⟩

/-- C2: after a successful EnforceRetention, a listed generation with no
snapshot in the retained set (the in-window snapshots, or the single forced
snapshot at the database position when none is in window) has its whole
directory removed; a generation with a retained snapshot keeps only listing
entries that are unparseable or whose index is at least the earliest
retained snapshot's index (`keepSnapAt`/`keepWalAt`), and every snapshot
file and WAL file, compressed or not, at or above that index survives. -/
theorem enforce_retention_prunes_by_earliest_retained
    (ri : Nat) (env : RetEnv) (fs fs' : DstFS) (gen : String) (gd : GenDir)
    (hWF : fs.WF)
    (hrun : EnforceRetention ri env fs = .ok fs')
    (hgd : fs.getGen gen = some gd)
    (hname : IsGenerationName gen = true)
    (hdir : gd.isDir = true) :
    (FindMinSnapshotByGeneration (retainedSet ri env fs) gen = none →
      fs'.getGen gen = none) ∧
    (∀ s, FindMinSnapshotByGeneration (retainedSet ri env fs) gen = some s →
      ∃ gd', fs'.getGen gen = some gd' ∧
        (∀ e ∈ gd'.snapshots.getD [], keepSnapAt s.index e = true) ∧
        (∀ e ∈ gd.snapshots.getD [], keepSnapAt s.index e = true →
          e ∈ gd'.snapshots.getD []) ∧
        (∀ e ∈ gd'.wal.getD [], keepWalAt s.index e = true) ∧
        (∀ e ∈ gd.wal.getD [], keepWalAt s.index e = true → e ∈ gd'.wal.getD [])) := by
  unfold EnforceRetention at hrun
  cases hdb : env.dbPos with
  | error msg =>
    rw [hdb] at hrun
    cases hrun
  | ok pos =>
    rw [hdb] at hrun
    dsimp only at hrun
    by_cases hz : pos.isZero = true
    · rw [if_pos hz] at hrun
      cases hrun
    · rw [if_neg hz] at hrun
      by_cases hemp : (FilterSnapshotsAfter (Snapshots fs) (env.now - ri)).isEmpty = true
      · rw [if_pos hemp] at hrun
        have hret : retainedSet ri env fs =
            [{ name := "", generation := pos.generation, index := pos.index,
               size := 0, createdAt := 0 }] := by
          unfold retainedSet
          rw [hdb]
          dsimp only
          rw [if_pos hemp]
        cases hsnap : snapshot env.snapEnv fs pos.generation pos.index with
        | error e =>
          rw [hsnap] at hrun
          cases hrun
        | ok fs1 =>
          rw [hsnap] at hrun
          rw [hret]
          rcases snapshot_ok_cases env.snapEnv fs fs1 pos.generation pos.index hsnap with
            heq | ⟨hstat, heq⟩
          · rw [heq] at hrun
            have hnd := generations_nodup fs hWF.1
            have hmem := mem_generations_of_getGen fs gen gd hgd hname hdir
            exact retention_loop_gen_characterization _ _ fs fs' gen gd gd
              hnd hmem hrun hgd (fun e he => he) rfl
          · rw [heq] at hrun
            have hnd := generations_nodup _
              (insertSnapshotFile_names_nodup fs pos.generation
                (snapshotFileName pos.index) env.snapEnv.snapMeta hWF.1)
            have hgeq := getGen_insertSnapshotFile fs pos.generation
              (snapshotFileName pos.index) env.snapEnv.snapMeta gen
            by_cases hgg : gen = pos.generation
            · have hgd1 : (fs.insertSnapshotFile pos.generation
                  (snapshotFileName pos.index) env.snapEnv.snapMeta).getGen gen =
                  some { gd with snapshots := some ((gd.snapshots.getD []) ++
                    [(snapshotFileName pos.index, env.snapEnv.snapMeta)]) } := by
                rw [hgeq, if_pos hgg, ← hgg, hgd]
              have hmem := mem_generations_of_getGen _ gen _ hgd1 hname hdir
              refine retention_loop_gen_characterization _ _ _ fs' gen gd _
                hnd hmem hrun hgd1 ?_ rfl
              intro e he
              exact List.mem_append_left _ he
            · have hgd1 : (fs.insertSnapshotFile pos.generation
                  (snapshotFileName pos.index) env.snapEnv.snapMeta).getGen gen =
                  some gd := by
                rw [hgeq, if_neg hgg]
                exact hgd
              have hmem := mem_generations_of_getGen _ gen _ hgd1 hname hdir
              exact retention_loop_gen_characterization _ _ _ fs' gen gd gd
                hnd hmem hrun hgd1 (fun e he => he) rfl
      · rw [if_neg hemp] at hrun
        have hret : retainedSet ri env fs =
            FilterSnapshotsAfter (Snapshots fs) (env.now - ri) := by
          unfold retainedSet
          rw [hdb]
          dsimp only
          rw [if_neg hemp]
        rw [hret]
        have hnd := generations_nodup fs hWF.1
        have hmem := mem_generations_of_getGen fs gen gd hgd hname hdir
        exact retention_loop_gen_characterization _ _ fs fs' gen gd gd
          hnd hmem hrun hgd (fun e he => he) rfl

/-- Witness: on the concrete two-generation tree, retention at interval 100
and time 1000 succeeds; the second generation has no retained snapshot and
the theorem removes its directory entirely. -/
theorem enforce_retention_prunes_by_earliest_retained_witness :
    wRetFS.WF ∧ EnforceRetention 100 wRetEnv wRetFS = Except.ok wRetFS' ∧
    FindMinSnapshotByGeneration (retainedSet 100 wRetEnv wRetFS) exGenB = none ∧
    wRetFS'.getGen exGenB = none :=
  ⟨by decide, by decide, by decide,
    (enforce_retention_prunes_by_earliest_retained 100 wRetEnv wRetFS wRetFS'
      exGenB wRetGdB (by decide) (by decide) (by decide) (by decide)
      (by decide)).1 (by decide)⟩
